import Mathlib

/-!
# xxproxy: inbox store, receive bridge and readiness gate

A shallow embedding of `src/xxproxy/main.go`.

* Go slices are lists, `s[k:]` is `List.drop k`.
* `time.Duration` is a signed 64-bit nanosecond count: an `Int` that is
  wrapped explicitly where Go arithmetic can overflow.
* `time.Time` is an instant, a number of nanoseconds relative to a fixed
  epoch; `time.Time.Sub` is the saturating difference of the Go library.
* Locks are not modelled: every operation below is the body that runs while
  the lock is held, so a run of the program is a sequence of operations.
-/

namespace XXProxy

/-! ## Durations and instants -/

/-- Smallest `time.Duration`, `-1 << 63`. -/
def minDuration : Int := -(2 ^ 63)

/-- Largest `time.Duration`, `1<<63 - 1`. -/
def maxDuration : Int := 2 ^ 63 - 1

/-- The constant `time.Second`, in nanoseconds. -/
def Second : Int := 1000000000

/-- Two-complement wrap of an integer into the signed 64-bit range. -/
def wrapInt64 (x : Int) : Int := (x + 2 ^ 63) % 2 ^ 64 - 2 ^ 63

/-- A `time.Time` without monotonic reading: nanoseconds since the epoch. -/
structure Time where
  nanos : Int
deriving DecidableEq, Repr

/-- The library function `t.Sub(u)`: the difference `t - u`, replaced by the
minimum or maximum duration when it does not fit a `time.Duration`. -/
def Time.Sub (t u : Time) : Int :=
  let d := t.nanos - u.nanos
  if d < minDuration then minDuration
  else if maxDuration < d then maxDuration
  else d

/-- Source `absDuration` (main.go 421-426); the negation is a 64-bit one. -/
def absDuration (d : Int) : Int :=
  if d < 0 then wrapInt64 (-d) else d

/-! ## Inbox store -/

/-- Source `InboxMessage` (main.go 447-452). -/
structure InboxMessage where
  ID : String
  Text : String
  Timestamp : Time
  Sender : String
deriving DecidableEq, Repr

/-- Source `inboxStore` (main.go 454-457), without its lock. -/
structure inboxStore where
  messages : List InboxMessage
deriving DecidableEq, Repr

/-- Source `newInboxStore` (main.go 459-463): an empty slice. -/
def newInboxStore : inboxStore := { messages := [] }

/-- The guard of `inboxStore.Add` (main.go 469-476): true when the call
returns before appending. -/
def inboxStore.suppresses (s : inboxStore) (msg : InboxMessage) : Bool :=
  match s.messages.getLast? with
  | none => false
  | some last =>
    last.Text == msg.Text &&
    last.Sender == msg.Sender &&
    decide (absDuration (last.Timestamp.Sub msg.Timestamp) < Second)

/-- Source `inboxStore.Add` (main.go 465-482). -/
def inboxStore.Add (s : inboxStore) (msg : InboxMessage) : inboxStore :=
  if s.suppresses msg then s
  else
    let appended := s.messages ++ [msg]
    if appended.length > 200 then
      { messages := appended.drop (appended.length - 200) }
    else
      { messages := appended }

/-- The zero value of `InboxMessage`, which `make` fills a new slice with. -/
def zeroInboxMessage : InboxMessage :=
  { ID := "", Text := "", Timestamp := { nanos := 0 }, Sender := "" }

/-- Go builtin `copy(dst, src)`: overwrites the first `min(len dst, len src)`
elements of `dst`. -/
def goCopy {α : Type} (dst src : List α) : List α :=
  src.take (min dst.length src.length) ++ dst.drop (min dst.length src.length)

/-- Source `inboxStore.List` (main.go 484-490). -/
def inboxStore.List (s : inboxStore) : List InboxMessage :=
  goCopy (List.replicate s.messages.length zeroInboxMessage) s.messages

/-- A sequence of `Add` calls, in order. -/
def addAll (s : inboxStore) (msgs : List InboxMessage) : inboxStore :=
  msgs.foldl inboxStore.Add s

/-- The messages of a sequence of `Add` calls whose call reached the append,
in order. -/
def accepted (s : inboxStore) : List InboxMessage → List InboxMessage
  | [] => []
  | m :: ms =>
    if s.suppresses m then accepted (s.Add m) ms
    else m :: accepted (s.Add m) ms

/-- The last `n` elements of a list (the whole list when it is shorter). -/
def lastN {α : Type} (n : Nat) (l : List α) : List α :=
  l.drop (l.length - n)

/-! ## Receive bridge -/

/-- What the bridge takes from the libraries it is linked with: the zero
value `message.ID{}`, the rendering `fmt.Sprintf("%v", id)`, the encoder
`base64.RawStdEncoding.EncodeToString`, the conversion `string(text)` and the
constants `dm.TextType` and `dm.ReactionType`. -/
structure Lib (ID : Type) where
  zeroID : ID
  render : ID → String
  encodeKey : List UInt8 → String
  stringOfBytes : List UInt8 → String
  TextType : Nat
  ReactionType : Nat

/-- Source `msgInfo` (main.go 500-514). -/
structure msgInfo (ID Round : Type) where
  messageID : ID
  replyID : ID
  nickname : String
  content : String
  partnerKey : List UInt8
  senderKey : List UInt8
  dmToken : Nat
  codeset : Nat
  timestamp : Time
  round : Round
  mType : Nat
  status : Nat
  uuid : Nat

/-- Go map read `m[k]` with the comma-ok form; the map is an association
list and the first binding of a key is the live one. -/
def mapGet {K V : Type} [DecidableEq K] : List (K × V) → K → Option V
  | [], _ => none
  | (k1, v) :: rest, k => if k1 = k then some v else mapGet rest k

/-- Go map write `m[k] = v`: replaces the binding of `k` or adds one. -/
def mapSet {K V : Type} [DecidableEq K] : List (K × V) → K → V → List (K × V)
  | [], k, v => [(k, v)]
  | (k1, v1) :: rest, k, v =>
    if k1 = k then (k, v) :: rest else (k1, v1) :: mapSet rest k v

/-- A write through the pointer stored under `k`: the record bound to `k` is
replaced by `f` of it; nothing happens when `k` is unbound. -/
def mapModify {K V : Type} [DecidableEq K] : List (K × V) → K → (V → V) → List (K × V)
  | [], _, _ => []
  | (k1, v1) :: rest, k, f =>
    if k1 = k then (k1, f v1) :: rest else (k1, v1) :: mapModify rest k f

/-- Source `receiver` (main.go 492-498), without its lock and without the
`recv` channel, which only carries best-effort arrival signals. The store
is the one the receiver was created over. -/
structure receiver (ID Round : Type) where
  msgData : List (ID × msgInfo ID Round)
  uuid : Nat
  store : inboxStore

/-- Source `newReceiver` (main.go 516-522): empty map, counter zero. -/
def newReceiver {ID Round : Type} (store : inboxStore) : receiver ID Round :=
  { msgData := [], uuid := 0, store := store }

/-- Source `receiver.receive` (main.go 524-561): the new state and the
returned `uint64`. The increment of the counter is a 64-bit unsigned one. -/
def receiver.receive {ID Round : Type} [DecidableEq ID] (lib : Lib ID)
    (r : receiver ID Round) (messageID replyID : ID) (nickname text : String)
    (partnerKey senderKey : List UInt8) (dmToken codeset : Nat)
    (timestamp : Time) (round : Round) (mType status : Nat) :
    receiver ID Round × Nat :=
  match mapGet r.msgData messageID with
  | none =>
    let uuid := (r.uuid + 1) % 2 ^ 64
    let msg : msgInfo ID Round :=
      { messageID := messageID
        replyID := replyID
        nickname := nickname
        content := text
        partnerKey := partnerKey
        senderKey := senderKey
        dmToken := dmToken
        codeset := codeset
        timestamp := timestamp
        round := round
        mType := mType
        status := status
        uuid := uuid }
    ({ msgData := mapSet r.msgData messageID msg
       uuid := uuid
       store := r.store.Add
         { ID := lib.render messageID
           Text := text
           Timestamp := timestamp
           Sender := lib.encodeKey senderKey } },
     msg.uuid)
  | some msg =>
    ({ msgData := mapModify r.msgData messageID (fun x => { x with status := status })
       uuid := r.uuid
       store := r.store },
     msg.uuid)

/-- Source `receiver.Receive` (main.go 563-570). -/
def receiver.Receive {ID Round : Type} [DecidableEq ID] (lib : Lib ID)
    (r : receiver ID Round) (messageID : ID) (nickname : String)
    (text : List UInt8) (partnerKey senderKey : List UInt8)
    (dmToken codeset : Nat) (timestamp : Time) (round : Round)
    (mType status : Nat) : receiver ID Round × Nat :=
  r.receive lib messageID lib.zeroID nickname (lib.stringOfBytes text)
    partnerKey senderKey dmToken codeset timestamp round mType status

/-- Source `receiver.ReceiveText` (main.go 572-580). -/
def receiver.ReceiveText {ID Round : Type} [DecidableEq ID] (lib : Lib ID)
    (r : receiver ID Round) (messageID : ID) (nickname text : String)
    (partnerKey senderKey : List UInt8) (dmToken codeset : Nat)
    (timestamp : Time) (round : Round) (status : Nat) :
    receiver ID Round × Nat :=
  r.receive lib messageID lib.zeroID nickname text
    partnerKey senderKey dmToken codeset timestamp round lib.TextType status

/-- Source `receiver.ReceiveReply` (main.go 582-590). -/
def receiver.ReceiveReply {ID Round : Type} [DecidableEq ID] (lib : Lib ID)
    (r : receiver ID Round) (messageID reactionTo : ID) (nickname text : String)
    (partnerKey senderKey : List UInt8) (dmToken codeset : Nat)
    (timestamp : Time) (round : Round) (status : Nat) :
    receiver ID Round × Nat :=
  r.receive lib messageID reactionTo nickname text
    partnerKey senderKey dmToken codeset timestamp round lib.TextType status

/-- Source `receiver.ReceiveReaction` (main.go 592-601). -/
def receiver.ReceiveReaction {ID Round : Type} [DecidableEq ID] (lib : Lib ID)
    (r : receiver ID Round) (messageID reactionTo : ID)
    (nickname reaction : String) (partnerKey senderKey : List UInt8)
    (dmToken codeset : Nat) (timestamp : Time) (round : Round) (status : Nat) :
    receiver ID Round × Nat :=
  r.receive lib messageID reactionTo nickname reaction
    partnerKey senderKey dmToken codeset timestamp round lib.ReactionType status

/-- Source `receiver.UpdateSentStatus` (main.go 603-612). -/
def receiver.UpdateSentStatus {ID Round : Type} [DecidableEq ID]
    (r : receiver ID Round) (_uuid : Nat) (messageID : ID) (_timestamp : Time)
    (_round : Round) (status : Nat) : receiver ID Round :=
  match mapGet r.msgData messageID with
  | none => r
  | some _ =>
    { msgData := mapModify r.msgData messageID (fun x => { x with status := status })
      uuid := r.uuid
      store := r.store }

/-- A receive event: one call of one of the four receive entry points, with
its arguments. -/
inductive RecvEvent (ID Round : Type) where
  | Receive (messageID : ID) (nickname : String) (text : List UInt8)
      (partnerKey senderKey : List UInt8) (dmToken codeset : Nat)
      (timestamp : Time) (round : Round) (mType status : Nat)
  | ReceiveText (messageID : ID) (nickname text : String)
      (partnerKey senderKey : List UInt8) (dmToken codeset : Nat)
      (timestamp : Time) (round : Round) (status : Nat)
  | ReceiveReply (messageID reactionTo : ID) (nickname text : String)
      (partnerKey senderKey : List UInt8) (dmToken codeset : Nat)
      (timestamp : Time) (round : Round) (status : Nat)
  | ReceiveReaction (messageID reactionTo : ID) (nickname reaction : String)
      (partnerKey senderKey : List UInt8) (dmToken codeset : Nat)
      (timestamp : Time) (round : Round) (status : Nat)

/-- The `messageID` argument of a receive event. -/
def RecvEvent.messageID {ID Round : Type} : RecvEvent ID Round → ID
  | .Receive m _ _ _ _ _ _ _ _ _ _ => m
  | .ReceiveText m _ _ _ _ _ _ _ _ _ => m
  | .ReceiveReply m _ _ _ _ _ _ _ _ _ _ => m
  | .ReceiveReaction m _ _ _ _ _ _ _ _ _ _ => m

/-- The `status` argument of a receive event. -/
def RecvEvent.status {ID Round : Type} : RecvEvent ID Round → Nat
  | .Receive _ _ _ _ _ _ _ _ _ _ s => s
  | .ReceiveText _ _ _ _ _ _ _ _ _ s => s
  | .ReceiveReply _ _ _ _ _ _ _ _ _ _ s => s
  | .ReceiveReaction _ _ _ _ _ _ _ _ _ _ s => s

/-- The text of a receive event as the string the entry point passes on. -/
def RecvEvent.text {ID Round : Type} (lib : Lib ID) : RecvEvent ID Round → String
  | .Receive _ _ t _ _ _ _ _ _ _ _ => lib.stringOfBytes t
  | .ReceiveText _ _ t _ _ _ _ _ _ _ => t
  | .ReceiveReply _ _ _ t _ _ _ _ _ _ _ => t
  | .ReceiveReaction _ _ _ t _ _ _ _ _ _ _ => t

/-- The `timestamp` argument of a receive event. -/
def RecvEvent.timestamp {ID Round : Type} : RecvEvent ID Round → Time
  | .Receive _ _ _ _ _ _ _ t _ _ _ => t
  | .ReceiveText _ _ _ _ _ _ _ t _ _ => t
  | .ReceiveReply _ _ _ _ _ _ _ _ t _ _ => t
  | .ReceiveReaction _ _ _ _ _ _ _ _ t _ _ => t

/-- The `senderKey` argument of a receive event. -/
def RecvEvent.senderKey {ID Round : Type} : RecvEvent ID Round → List UInt8
  | .Receive _ _ _ _ k _ _ _ _ _ _ => k
  | .ReceiveText _ _ _ _ k _ _ _ _ _ => k
  | .ReceiveReply _ _ _ _ _ k _ _ _ _ _ => k
  | .ReceiveReaction _ _ _ _ _ k _ _ _ _ _ => k

/-- The inbox message that a first arrival of the event pushes to the store
(main.go 550-555). -/
def RecvEvent.inboxMessage {ID Round : Type} (lib : Lib ID)
    (e : RecvEvent ID Round) : InboxMessage :=
  { ID := lib.render e.messageID
    Text := e.text lib
    Timestamp := e.timestamp
    Sender := lib.encodeKey e.senderKey }

/-- One receive event applied to a receiver: the call of its entry point. -/
def receiver.step {ID Round : Type} [DecidableEq ID] (lib : Lib ID)
    (r : receiver ID Round) : RecvEvent ID Round → receiver ID Round × Nat
  | .Receive m n t pk sk tok cs ts rd mt st =>
    r.Receive lib m n t pk sk tok cs ts rd mt st
  | .ReceiveText m n t pk sk tok cs ts rd st =>
    r.ReceiveText lib m n t pk sk tok cs ts rd st
  | .ReceiveReply m tgt n t pk sk tok cs ts rd st =>
    r.ReceiveReply lib m tgt n t pk sk tok cs ts rd st
  | .ReceiveReaction m tgt n t pk sk tok cs ts rd st =>
    r.ReceiveReaction lib m tgt n t pk sk tok cs ts rd st

/-- The receiver after a sequence of receive events, applied one at a time
as under the lock. -/
def receiver.run {ID Round : Type} [DecidableEq ID] (lib : Lib ID)
    (r : receiver ID Round) : List (RecvEvent ID Round) → receiver ID Round
  | [] => r
  | e :: es => receiver.run lib (r.step lib e).1 es

/-- The values returned by the calls of a sequence of receive events. -/
def receiver.returns {ID Round : Type} [DecidableEq ID] (lib : Lib ID)
    (r : receiver ID Round) : List (RecvEvent ID Round) → List Nat
  | [] => []
  | e :: es => (r.step lib e).2 :: receiver.returns lib (r.step lib e).1 es

/-- The identities of `ids` that are not in `seen`, added to `seen` in the
order in which they are first met. -/
def observe {ID : Type} [DecidableEq ID] (seen : List ID) : List ID → List ID
  | [] => seen
  | a :: rest => if a ∈ seen then observe seen rest else observe (seen ++ [a]) rest

/-- The distinct identities of a sequence, in order of first observation. -/
def firstSeen {ID : Type} [DecidableEq ID] (ids : List ID) : List ID :=
  observe [] ids

/-- The sequence number of the record stored under an identity, if any. -/
def receiver.uuidOf {ID Round : Type} [DecidableEq ID]
    (r : receiver ID Round) (m : ID) : Option Nat :=
  (mapGet r.msgData m).map (fun x => x.uuid)

/-- The invariant behind the numbering: the identities with a record are the
identities seen so far, in order of first observation; the counter is their
number; and each record holds its position in that order, counted from 1. -/
def Numbered {ID Round : Type} [DecidableEq ID]
    (r : receiver ID Round) (seen : List ID) : Prop :=
  r.msgData.map Prod.fst = seen ∧
  r.uuid = seen.length ∧
  ∀ k record, mapGet r.msgData k = some record →
    record.uuid = seen.indexOf k + 1

/-- A concrete instance of the library functions, for evaluating the bridge
on examples: identities are strings and render as themselves, keys encode to
their decimal bytes. -/
def demoLib : Lib String :=
  { zeroID := ""
    render := id
    encodeKey := fun k => String.intercalate "." (k.map (fun b => toString b.toNat))
    stringOfBytes := fun t => String.mk (t.map (fun b => Char.ofNat b.toNat))
    TextType := 1
    ReactionType := 3 }

/-! ## Readiness gate -/

/-- A Go `float32`: IEEE 754 binary32. A finite value is `man * 2 ^ exp`;
the sign of zero is not kept, since no comparison depends on it. -/
inductive Float32 where
  | finite (man : Int) (exp : Int)
  | inf (negative : Bool)
  | nan
deriving DecidableEq, Repr

/-- Number of binary digits of `x`, by halving at most `fuel` times. -/
def bitLenAux : Nat → Nat → Nat
  | 0, _ => 0
  | fuel + 1, x => if x = 0 then 0 else bitLenAux fuel (x / 2) + 1

/-- Number of binary digits of `n` (zero for zero). -/
def bitLen (n : Nat) : Nat := bitLenAux n n

/-- The integer nearest to `n / d`, the even one of the two in a tie. -/
def roundNearestEven (n d : Nat) : Nat :=
  let q := n / d
  let r := n % d
  if 2 * r < d then q
  else if d < 2 * r then q + 1
  else if q % 2 = 0 then q else q + 1

/-- The exponent of the leading binary digit of the positive rational
`n / d`, that is the largest `e` with `2 ^ e ≤ n / d`. -/
def leadExp (n d : Nat) : Int :=
  let k : Int := (bitLen n : Int) - (bitLen d : Int)
  if k ≥ 0 then
    (if d * 2 ^ k.toNat ≤ n then k else k - 1)
  else
    (if d ≤ n * 2 ^ (-k).toNat then k else k - 1)

/-- Rounding of a positive rational `n / d` to 24 significant binary digits
(fewer below `2 ^ -126`, where the spacing stays `2 ^ -149`): the result is
`m * 2 ^ q`. -/
def Float32.roundPos (n d : Nat) : Nat × Int :=
  let q : Int := max (leadExp n d - 23) (-149)
  let m := if q ≥ 0 then roundNearestEven n (d * 2 ^ q.toNat)
           else roundNearestEven (n * 2 ^ (-q).toNat) d
  (m, q)

/-- The binary32 value nearest to the rational `num / den`, ties to even;
infinity when the rounded value reaches `2 ^ 128`. -/
def Float32.round (num : Int) (den : Nat) : Float32 :=
  if den = 0 then .nan
  else if num = 0 then .finite 0 0
  else
    let (m, q) := Float32.roundPos num.natAbs den
    if q ≥ 0 ∧ 2 ^ 128 ≤ m * 2 ^ q.toNat then .inf (decide (num < 0))
    else .finite (if num < 0 then -(m : Int) else m) q

/-- The conversion `float32(n)` of an integer. -/
def Float32.ofInt (n : Int) : Float32 := Float32.round n 1

/-- The product of two `float32` values: the exact product, rounded. -/
def Float32.mul : Float32 → Float32 → Float32
  | .finite a ea, .finite b eb =>
    let e := ea + eb
    if e ≥ 0 then Float32.round (a * b * 2 ^ e.toNat) 1
    else Float32.round (a * b) (2 ^ (-e).toNat)
  | .finite a _, .inf s => if a = 0 then .nan else .inf (s != decide (a < 0))
  | .inf s, .finite b _ => if b = 0 then .nan else .inf (s != decide (b < 0))
  | .inf s, .inf t => .inf (s != t)
  | _, _ => .nan

/-- The comparison `x >= y` of two `float32` values; false with a NaN. -/
def Float32.ge : Float32 → Float32 → Bool
  | .finite a ea, .finite b eb =>
    let e := min ea eb
    decide (b * 2 ^ (eb - e).toNat ≤ a * 2 ^ (ea - e).toNat)
  | .finite _ _, .inf s => s
  | .inf s, .finite _ _ => !s
  | .inf s, .inf t => !s || t
  | _, _ => false

/-- The constant `0.85` that `startNetwork` passes as a `float32`
(main.go 106): the binary32 value nearest to 85/100. -/
def registrationThreshold : Float32 := Float32.round 85 100

/-- A Go `error` value, by its message; `none` is `nil`. -/
abbrev GoError := String

/-- What a blocking call has done on a finite input: it is still waiting
when the input ends, or it has returned an `error` (`none` for `nil`). -/
inductive Outcome where
  | blocked
  | returned (err : Option GoError)
deriving DecidableEq, Repr

/-- What the `select` of `waitUntilConnected` can receive: a value from the
`connected` channel or the firing of the timeout timer. -/
inductive ConnEvent where
  | signal (isConnected : Bool)
  | timerExpired
deriving DecidableEq, Repr

/-- Source `waitUntilConnected` (main.go 628-642) over the sequence of events
that its `select` receives, in order. -/
def waitUntilConnected : List ConnEvent → Outcome
  | [] => .blocked
  | .signal true :: _ => .returned none
  | .signal false :: rest => waitUntilConnected rest
  | .timerExpired :: _ => .returned (some "timeout waiting for network follower")

/-- One result of `GetNodeRegistrationStatus`. -/
structure RegStatus where
  numReg : Int
  total : Int
  err : Option GoError
deriving DecidableEq, Repr

/-- The readiness test of `waitForRegistration` (main.go 654):
`float32(numReg) >= threshold*float32(total)`. -/
def registrationReached (threshold : Float32) (numReg total : Int) : Bool :=
  Float32.ge (Float32.ofInt numReg) (Float32.mul threshold (Float32.ofInt total))

/-- Source `waitForRegistration` (main.go 644-659) over a script of query
results, one per poll: the outcome and the results not consumed. -/
def waitForRegistration (threshold : Float32) :
    List RegStatus → Outcome × List RegStatus
  | [] => (.blocked, [])
  | p :: rest =>
    match p.err with
    | some e => (.returned (some e), rest)
    | none =>
      if p.total = 0 then waitForRegistration threshold rest
      else if registrationReached threshold p.numReg p.total then
        (.returned none, rest)
      else waitForRegistration threshold rest

/-- Source `proxyServer.startNetwork` (main.go 92-107): `follower` is the
result of `StartNetworkFollower`, `events` what the connectivity wait
receives and `script` the registration results still to be queried. The
second component is the part of `script` that was not queried. -/
def startNetwork (follower : Option GoError) (events : List ConnEvent)
    (script : List RegStatus) : Outcome × List RegStatus :=
  match follower with
  | some e => (.returned (some e), script)
  | none =>
    match waitUntilConnected events with
    | .blocked => (.blocked, script)
    | .returned (some e) => (.returned (some e), script)
    | .returned none => waitForRegistration registrationThreshold script

/-- The results that end the wait of `waitForRegistration`: an error, or no
error with a non-zero total on which the readiness test succeeds
(main.go 647-656). -/
def endsWait (threshold : Float32) (p : RegStatus) : Prop :=
  p.err ≠ none ∨
    (p.err = none ∧ p.total ≠ 0 ∧
      registrationReached threshold p.numReg p.total = true)

/-! ## Interleavings of bridge calls -/

/-- A call on the receiver: a receive event or `UpdateSentStatus` with its
arguments. -/
inductive Call (ID Round : Type) where
  | recv (e : RecvEvent ID Round)
  | updateSent (uuid : Nat) (messageID : ID) (timestamp : Time)
      (round : Round) (status : Nat)

/-- One call applied to a receiver. -/
def receiver.apply {ID Round : Type} [DecidableEq ID] (lib : Lib ID)
    (r : receiver ID Round) : Call ID Round → receiver ID Round
  | .recv e => (r.step lib e).1
  | .updateSent uuid m ts rd st => r.UpdateSentStatus uuid m ts rd st

/-- The receiver after a sequence of calls, applied one at a time. -/
def receiver.runCalls {ID Round : Type} [DecidableEq ID] (lib : Lib ID)
    (r : receiver ID Round) : List (Call ID Round) → receiver ID Round
  | [] => r
  | c :: cs => receiver.runCalls lib (r.apply lib c) cs

/-- The identities carried by the receive events of a sequence of calls, in
order (`UpdateSentStatus` calls carry none). -/
def recvIDs {ID Round : Type} : List (Call ID Round) → List ID
  | [] => []
  | .recv e :: cs => e.messageID :: recvIDs cs
  | .updateSent _ _ _ _ _ :: cs => recvIDs cs

/-! ## Notification formatter and handler -/

/-- An operand of a formatting verb. -/
inductive FmtArg where
  | str (s : String)
  | int (n : Int)

/-- The decimal digit character of `d`, for `d < 10`. -/
def digitChar (d : Nat) : Char := Char.ofNat (48 + d)

/-- The decimal digits of `n`, most significant first, in front of `acc`;
`fuel` bounds the number of digits. -/
def natDigitsAux : Nat → Nat → List Char → List Char
  | 0, _, acc => acc
  | fuel + 1, n, acc =>
    if n < 10 then digitChar n :: acc
    else natDigitsAux fuel (n / 10) (digitChar (n % 10) :: acc)

/-- The decimal numeral of a natural number. -/
def formatNat (n : Nat) : String := String.mk (natDigitsAux (n + 1) n [])

/-- The verb `%d` on a Go `int`: a minus sign for a negative number, then
the decimal digits of its magnitude. -/
def formatInt (n : Int) : String :=
  if n < 0 then "-" ++ formatNat n.natAbs else formatNat n.natAbs

/-- The number that a sequence of decimal digits denotes. -/
def decimalValue (ds : List Char) : Nat :=
  ds.foldl (fun v c => 10 * v + (c.toNat - 48)) 0

/-- The text `s` is the decimal numeral of `n`: a minus sign exactly when `n`
is negative, then digits `0` to `9` with no leading zero (a single `0` for
zero) whose value is the magnitude of `n`. -/
def IsDecimal (n : Int) (s : String) : Prop :=
  ∃ ds : List Char,
    s.data = (if n < 0 then ['-'] else []) ++ ds ∧
    ds ≠ [] ∧
    (∀ c ∈ ds, '0' ≤ c ∧ c ≤ '9') ∧
    (ds.head? = some '0' → ds = ['0']) ∧
    decimalValue ds = n.natAbs

/-- The segments of a text between its newline characters. -/
def splitOnNewline : List Char → List (List Char)
  | [] => [[]]
  | c :: cs =>
    if c = '\n' then [] :: splitOnNewline cs
    else
      match splitOnNewline cs with
      | [] => [[c]]
      | l :: ls => (c :: l) :: ls

/-- The lines of a text: its segments that are ended by a newline. -/
def outputLines (s : String) : List String :=
  ((splitOnNewline s.data).dropLast).map String.mk

/-- Lines concatenated, each followed by a newline. -/
def joinLines (ls : List String) : String :=
  String.join (ls.map (fun l => l ++ "\n"))

/-- The text has no newline character. -/
abbrev noLineBreak (s : String) : Prop := '\n' ∉ s.data

/-- The part of `fmt.Sprintf` that the formatters use: `%s` with a string
operand and `%d` with an integer operand; every other character is copied. -/
def sprintfAux : List Char → List FmtArg → List Char
  | [], _ => []
  | '%' :: 's' :: rest, .str s :: args => s.data ++ sprintfAux rest args
  | '%' :: 'd' :: rest, .int n :: args => (formatInt n).data ++ sprintfAux rest args
  | c :: rest, args => c :: sprintfAux rest args

/-- The formatted text of `fmt.Sprintf(format, args...)`. -/
def Sprintf (format : String) (args : List FmtArg) : String :=
  String.mk (sprintfAux format.data args)

/-- A `strings.Builder`: the texts written to it so far, one per write. -/
structure Builder where
  chunks : List String
deriving DecidableEq, Repr

/-- The builder `&strings.Builder{}`. -/
def Builder.empty : Builder := { chunks := [] }

/-- The method `builder.String()`: everything written, concatenated. -/
def Builder.contents (b : Builder) : String := String.join b.chunks

/-- The call `fmt.Fprintln(builder, args...)` on string operands: the
operands separated by spaces, then a newline, in one write. -/
def Fprintln (b : Builder) (args : List String) : Builder :=
  { chunks := b.chunks ++ [String.intercalate " " args ++ "\n"] }

/-- The call `fmt.Fprintf(builder, format, args...)`: one write. -/
def Fprintf (b : Builder) (format : String) (args : List FmtArg) : Builder :=
  { chunks := b.chunks ++ [Sprintf format args] }

/-- Source `stealthPaymentNotification` (main.go 151-158); `OriginChain` is a
`*int`, `none` for nil. -/
structure stealthPaymentNotification where
  XXUserID : String
  StealthID : String
  Asset : String
  Amount : String
  OriginChain : Option Int
  TxHash : String
deriving DecidableEq, Repr

/-- Source `invoicePaidNotification` (main.go 160-168). -/
structure invoicePaidNotification where
  XXUserID : String
  StealthID : String
  InvoiceID : String
  Asset : String
  Amount : String
  OriginChain : Option Int
  TxHash : String
deriving DecidableEq, Repr

/-- The builder of `buildStealthPaymentMessage` (main.go 225-236) just
before `builder.String()` is taken. -/
def stealthPaymentWrites (payload : stealthPaymentNotification) : Builder :=
  let builder := Builder.empty
  let builder := Fprintln builder ["Stealth deposit confirmed"]
  let builder := Fprintf builder "User: %s\n" [.str payload.XXUserID]
  let builder := Fprintf builder "Asset / Amount: %s %s\n"
    [.str payload.Amount, .str payload.Asset]
  let builder := Fprintf builder "Stealth bucket: %s\n" [.str payload.StealthID]
  let builder :=
    match payload.OriginChain with
    | some n => Fprintf builder "Origin chain: %d\n" [.int n]
    | none => builder
  let builder :=
    if payload.TxHash ≠ "" then Fprintf builder "Tx hash: %s\n" [.str payload.TxHash]
    else builder
  Fprintln builder []

/-- Source `buildStealthPaymentMessage` (main.go 224-238). -/
def buildStealthPaymentMessage (payload : stealthPaymentNotification) : String :=
  (stealthPaymentWrites payload).contents

/-- The first text that `buildInvoicePaidMessage` writes, with the characters
of the source file (main.go 242). -/
def invoiceHeadline : String :=
  "ðŸ›ï¸ Invoice settled from stealth balance"

/-- The two closing texts of `buildInvoicePaidMessage` (main.go 254-255),
with the characters of the source file. -/
def invoiceClosing : List String :=
  ["Merchant now has PAS on-chain. Leftover stealth funds stay in your bucket.\n",
   "Need to withdraw fiat-side? Use Inbox â†’ On-chain inbox when you\x27re ready.\n"]

/-- The operands of the two closing `Fprintln` calls of
`buildInvoicePaidMessage` (main.go 254-255), with the characters of the
source file. -/
def invoiceClosingLines : List String :=
  ["Merchant now has PAS on-chain. Leftover stealth funds stay in your bucket.",
   "Need to withdraw fiat-side? Use Inbox â†’ On-chain inbox when you\x27re ready."]

/-- The builder of `buildInvoicePaidMessage` (main.go 241-255) just before
`builder.String()` is taken. -/
def invoicePaidWrites (payload : invoicePaidNotification) : Builder :=
  let builder := Builder.empty
  let builder := Fprintln builder
    ["ðŸ›ï¸ Invoice settled from stealth balance"]
  let builder := Fprintf builder "User: %s\n" [.str payload.XXUserID]
  let builder := Fprintf builder "Invoice: %s\n" [.str payload.InvoiceID]
  let builder := Fprintf builder "Stealth bucket: %s\n" [.str payload.StealthID]
  let builder := Fprintf builder "Asset / Amount: %s %s\n"
    [.str payload.Amount, .str payload.Asset]
  let builder :=
    match payload.OriginChain with
    | some n => Fprintf builder "Origin chain: %d\n" [.int n]
    | none => builder
  let builder :=
    if payload.TxHash ≠ "" then Fprintf builder "Tx hash: %s\n" [.str payload.TxHash]
    else builder
  let builder := Fprintln builder []
  let builder := Fprintln builder
    ["Merchant now has PAS on-chain. Leftover stealth funds stay in your bucket."]
  Fprintln builder
    ["Need to withdraw fiat-side? Use Inbox â†’ On-chain inbox when you\x27re ready."]

/-- Source `buildInvoicePaidMessage` (main.go 240-257). -/
def buildInvoicePaidMessage (payload : invoicePaidNotification) : String :=
  (invoicePaidWrites payload).contents

/-- What a notification handler has done when it returns: the HTTP status
of its answer, the messages it built and the texts it handed to `SendText`. -/
structure HandlerResult where
  status : Nat
  built : List String
  sends : List String
deriving DecidableEq, Repr

/-- Source `proxyServer.sendNotificationMessage` (main.go 214-222);
`sendText` is the error result of `dmClient.SendText` on a text. -/
def sendNotificationMessage (sendText : String → Option GoError)
    (text : String) : Option GoError :=
  sendText text

/-- Source `proxyServer.handleNotifyInvoicePaid` (main.go 192-212) on the
outcome of decoding the body: `decodeFailed` says that the decoder returned
an error other than `io.EOF`, and `payload` is the decoded value (the zero
value for an empty body). -/
def handleNotifyInvoicePaid (sendText : String → Option GoError)
    (decodeFailed : Bool) (payload : invoicePaidNotification) : HandlerResult :=
  if decodeFailed then { status := 400, built := [], sends := [] }
  else if payload.XXUserID = "" ∨ payload.StealthID = "" ∨ payload.InvoiceID = "" ∨
      payload.Asset = "" ∨ payload.Amount = "" then
    { status := 400, built := [], sends := [] }
  else
    let message := buildInvoicePaidMessage payload
    match sendNotificationMessage sendText message with
    | some _ => { status := 502, built := [message], sends := [message] }
    | none => { status := 200, built := [message], sends := [message] }

/-! ## Theorems: inbox store -/

theorem lastN_of_length_le {α : Type} (n : Nat) (l : List α) (h : l.length ≤ n) :
    lastN n l = l := by
  unfold lastN
  have : l.length - n = 0 := by omega
  simp [this]

theorem length_lastN {α : Type} (n : Nat) (l : List α) :
    (lastN n l).length = min n l.length := by
  unfold lastN
  simp
  omega

theorem lastN_snoc {α : Type} (n : Nat) (l : List α) (a : α) :
    lastN (n + 1) (l ++ [a]) = lastN n l ++ [a] := by
  unfold lastN
  have h1 : (l ++ [a]).length - (n + 1) = l.length - n := by simp
  rw [h1, List.drop_append_of_le_length (by omega)]

theorem lastN_lastN {α : Type} (n m : Nat) (l : List α) (h : n ≤ m) :
    lastN n (lastN m l) = lastN n l := by
  unfold lastN
  rw [List.drop_drop]
  congr 1
  simp
  omega

theorem Add_of_suppresses (s : inboxStore) (m : InboxMessage)
    (h : s.suppresses m = true) : s.Add m = s := by
  simp [inboxStore.Add, h]

theorem Add_of_not_suppresses (s : inboxStore) (m : InboxMessage)
    (h : s.suppresses m = false) :
    (s.Add m).messages = lastN 200 (s.messages ++ [m]) := by
  unfold inboxStore.Add
  rw [h]
  by_cases hl : (s.messages ++ [m]).length > 200
  · simp only [hl, if_true, Bool.false_eq_true, if_false]
    rfl
  · simp only [hl, if_false, Bool.false_eq_true]
    rw [lastN_of_length_le]
    omega

theorem List_eq_messages (s : inboxStore) : s.List = s.messages := by
  simp [inboxStore.List, goCopy]

theorem addAll_eq_lastN_accepted (msgs : List InboxMessage) :
    ∀ (s : inboxStore) (pre : List InboxMessage),
      s.messages = lastN 200 pre →
      (addAll s msgs).messages = lastN 200 (pre ++ accepted s msgs) := by
  induction msgs with
  | nil => intro s pre h; simpa [addAll, accepted] using h
  | cons m ms ih =>
    intro s pre h
    have hstep : addAll s (m :: ms) = addAll (s.Add m) ms := by
      simp [addAll]
    rw [hstep]
    cases hs : s.suppresses m with
    | true =>
      have : accepted s (m :: ms) = accepted (s.Add m) ms := by
        simp [accepted, hs]
      rw [this]
      apply ih
      rw [Add_of_suppresses s m hs]
      exact h
    | false =>
      have : accepted s (m :: ms) = m :: accepted (s.Add m) ms := by
        simp [accepted, hs]
      rw [this]
      have hpre : pre ++ m :: accepted (s.Add m) ms
          = (pre ++ [m]) ++ accepted (s.Add m) ms := by simp
      rw [hpre]
      apply ih
      rw [Add_of_not_suppresses s m hs, h]
      have h200 : (200 : Nat) = 199 + 1 := rfl
      rw [h200, lastN_snoc, lastN_snoc, lastN_lastN 199 (199 + 1) pre (by omega)]

/-- C1: after any finite sequence of `Add` calls on a store made by
`newInboxStore`, the store contents and the result of `List()` are the
accepted (non-suppressed) messages when there are at most 200 of them, and
exactly the last 200 accepted messages, in their original order, otherwise. -/
theorem C1_sliding_window (msgs : List InboxMessage) :
    (addAll newInboxStore msgs).messages
        = (if (accepted newInboxStore msgs).length ≤ 200
            then accepted newInboxStore msgs
            else (accepted newInboxStore msgs).drop
              ((accepted newInboxStore msgs).length - 200))
      ∧ (addAll newInboxStore msgs).List = (addAll newInboxStore msgs).messages := by
  refine ⟨?_, List_eq_messages _⟩
  have h := addAll_eq_lastN_accepted msgs newInboxStore [] (by simp [newInboxStore, lastN])
  rw [h]
  simp only [List.nil_append]
  split
  · next hle => exact lastN_of_length_le _ _ hle
  · rfl

/-- Without saturation towards the minimum, the test of `Add` on the
timestamps is the test that they are less than one second apart. -/
theorem absDuration_Sub_lt_Second_iff (t u : Time)
    (h : u.nanos - t.nanos < 2 ^ 63) :
    absDuration (t.Sub u) < Second ↔ |t.nanos - u.nanos| < Second := by
  rw [abs_lt]
  unfold absDuration Time.Sub minDuration maxDuration wrapInt64 Second
  norm_num at h ⊢
  split_ifs <;> omega

theorem suppresses_iff (s : inboxStore) (m : InboxMessage) :
    s.suppresses m = true ↔
      ∃ last, s.messages.getLast? = some last ∧ last.Text = m.Text ∧
        last.Sender = m.Sender ∧
        absDuration (last.Timestamp.Sub m.Timestamp) < Second := by
  unfold inboxStore.suppresses
  cases hl : s.messages.getLast? with
  | none => simp
  | some last => simp [and_assoc]

theorem getLast?_lastN_snoc {α : Type} (n : Nat) (l : List α) (a : α) :
    (lastN (n + 1) (l ++ [a])).getLast? = some a := by
  rw [lastN_snoc]
  simp

theorem getLast?_Add_of_not_suppresses (s : inboxStore) (m : InboxMessage)
    (h : s.suppresses m = false) : (s.Add m).messages.getLast? = some m := by
  rw [Add_of_not_suppresses s m h]
  exact getLast?_lastN_snoc 199 s.messages m

theorem suppresses_of_getLast?_eq (s : inboxStore) (m : InboxMessage)
    (h : s.messages.getLast? = some m) : s.suppresses m = true := by
  rw [suppresses_iff]
  refine ⟨m, h, rfl, rfl, ?_⟩
  simp [Time.Sub, absDuration, minDuration, maxDuration, Second]

theorem Add_eq_self_iff (s : inboxStore) (m : InboxMessage) :
    s.Add m = s ↔ s.suppresses m = true := by
  constructor
  · intro h
    cases hs : s.suppresses m with
    | true => rfl
    | false =>
      have h1 := getLast?_Add_of_not_suppresses s m hs
      rw [h] at h1
      rw [suppresses_of_getLast?_eq s m h1] at hs
      exact hs.symm
  · exact Add_of_suppresses s m

/-- C2: for a message whose timestamp difference to the last stored message
fits a 64-bit nanosecond duration, `Add` leaves the store unchanged exactly
when the store is non-empty and its last message has the same text, the
same sender and a timestamp less than one second away (identifiers and
earlier messages play no part); in every other case the message is appended
(and the window of 200 applied) and is the last element afterwards. The
difference meant is the timestamp of the message minus that of the last
stored one. -/
theorem C2_suppression_rule (s : inboxStore) (m : InboxMessage)
    (hfit : ∀ last, s.messages.getLast? = some last →
      minDuration ≤ m.Timestamp.nanos - last.Timestamp.nanos ∧
      m.Timestamp.nanos - last.Timestamp.nanos ≤ maxDuration) :
    (s.Add m = s ↔
      ∃ last, s.messages.getLast? = some last ∧ last.Text = m.Text ∧
        last.Sender = m.Sender ∧
        |last.Timestamp.nanos - m.Timestamp.nanos| < Second) ∧
    ((¬ ∃ last, s.messages.getLast? = some last ∧ last.Text = m.Text ∧
        last.Sender = m.Sender ∧
        |last.Timestamp.nanos - m.Timestamp.nanos| < Second) →
      (s.Add m).messages.getLast? = some m ∧
      (s.Add m).messages = lastN 200 (s.messages ++ [m])) := by
  have key : s.suppresses m = true ↔
      ∃ last, s.messages.getLast? = some last ∧ last.Text = m.Text ∧
        last.Sender = m.Sender ∧
        |last.Timestamp.nanos - m.Timestamp.nanos| < Second := by
    rw [suppresses_iff]
    constructor
    · rintro ⟨last, hl, ht, hs, hd⟩
      have hb := (hfit last hl).2
      refine ⟨last, hl, ht, hs, ?_⟩
      refine (absDuration_Sub_lt_Second_iff _ _ ?_).1 hd
      unfold maxDuration at hb
      omega
    · rintro ⟨last, hl, ht, hs, hd⟩
      have hb := (hfit last hl).2
      refine ⟨last, hl, ht, hs, ?_⟩
      refine (absDuration_Sub_lt_Second_iff _ _ ?_).2 hd
      unfold maxDuration at hb
      omega
  refine ⟨(Add_eq_self_iff s m).trans key, ?_⟩
  intro hno
  have hs : s.suppresses m = false := by
    cases hs : s.suppresses m with
    | false => rfl
    | true => exact absurd (key.1 hs) hno
  exact ⟨getLast?_Add_of_not_suppresses s m hs, Add_of_not_suppresses s m hs⟩

/-- Witness of C2: a store holding one message and a second message with the
same text and sender half a second later. -/
theorem C2_suppression_rule_witness :
    ((inboxStore.mk [⟨"a", "hi", ⟨0⟩, "k"⟩]).Add ⟨"b", "hi", ⟨500000000⟩, "k"⟩
        = inboxStore.mk [⟨"a", "hi", ⟨0⟩, "k"⟩] ↔
      ∃ last, (inboxStore.mk [⟨"a", "hi", ⟨0⟩, "k"⟩]).messages.getLast? = some last ∧
        last.Text = (InboxMessage.mk "b" "hi" ⟨500000000⟩ "k").Text ∧
        last.Sender = (InboxMessage.mk "b" "hi" ⟨500000000⟩ "k").Sender ∧
        |last.Timestamp.nanos
          - (InboxMessage.mk "b" "hi" ⟨500000000⟩ "k").Timestamp.nanos| < Second) ∧
    ((¬ ∃ last, (inboxStore.mk [⟨"a", "hi", ⟨0⟩, "k"⟩]).messages.getLast? = some last ∧
        last.Text = (InboxMessage.mk "b" "hi" ⟨500000000⟩ "k").Text ∧
        last.Sender = (InboxMessage.mk "b" "hi" ⟨500000000⟩ "k").Sender ∧
        |last.Timestamp.nanos
          - (InboxMessage.mk "b" "hi" ⟨500000000⟩ "k").Timestamp.nanos| < Second) →
      ((inboxStore.mk [⟨"a", "hi", ⟨0⟩, "k"⟩]).Add
        ⟨"b", "hi", ⟨500000000⟩, "k"⟩).messages.getLast?
        = some ⟨"b", "hi", ⟨500000000⟩, "k"⟩ ∧
      ((inboxStore.mk [⟨"a", "hi", ⟨0⟩, "k"⟩]).Add
        ⟨"b", "hi", ⟨500000000⟩, "k"⟩).messages
        = lastN 200 ((inboxStore.mk [⟨"a", "hi", ⟨0⟩, "k"⟩]).messages
            ++ [⟨"b", "hi", ⟨500000000⟩, "k"⟩])) :=
  C2_suppression_rule (inboxStore.mk [⟨"a", "hi", ⟨0⟩, "k"⟩])
    ⟨"b", "hi", ⟨500000000⟩, "k"⟩
    (by
      intro last hl
      simp only [List.getLast?_singleton, Option.some.injEq] at hl
      subst hl
      simp [minDuration, maxDuration])

/-- The part of C3 that holds on the code: 999 ms apart leaves one entry. -/
theorem two_adds_999ms (text sender id1 id2 : String) (t1 t2 : Time)
    (h : |t1.nanos - t2.nanos| = 999000000) :
    (addAll newInboxStore [⟨id1, text, t1, sender⟩, ⟨id2, text, t2, sender⟩]).messages
      = [⟨id1, text, t1, sender⟩] := by
  have h1 : newInboxStore.Add ⟨id1, text, t1, sender⟩
      = inboxStore.mk [⟨id1, text, t1, sender⟩] := by
    simp [inboxStore.Add, inboxStore.suppresses, newInboxStore]
  have h2 : (inboxStore.mk [⟨id1, text, t1, sender⟩]).suppresses
      ⟨id2, text, t2, sender⟩ = true := by
    rw [suppresses_iff]
    refine ⟨⟨id1, text, t1, sender⟩, by simp, rfl, rfl, ?_⟩
    have hlt : |t1.nanos - t2.nanos| < Second := by rw [h]; decide
    refine (absDuration_Sub_lt_Second_iff _ _ ?_).2 hlt
    have := (abs_lt.1 hlt).1
    unfold Second at this
    show t2.nanos - t1.nanos < 2 ^ 63
    omega
  simp only [addAll, List.foldl, h1]
  rw [Add_of_suppresses _ _ h2]

/-- The part of C3 that holds on the code: at least 1000 ms apart leaves both
entries when the second timestamp is less than `2^63` ns after the first. -/
theorem two_adds_1000ms (text sender id1 id2 : String) (t1 t2 : Time)
    (h : 1000000000 ≤ |t1.nanos - t2.nanos|)
    (hsat : t2.nanos - t1.nanos < 2 ^ 63) :
    (addAll newInboxStore [⟨id1, text, t1, sender⟩, ⟨id2, text, t2, sender⟩]).messages
      = [⟨id1, text, t1, sender⟩, ⟨id2, text, t2, sender⟩] := by
  have h1 : newInboxStore.Add ⟨id1, text, t1, sender⟩
      = inboxStore.mk [⟨id1, text, t1, sender⟩] := by
    simp [inboxStore.Add, inboxStore.suppresses, newInboxStore]
  have h2 : (inboxStore.mk [⟨id1, text, t1, sender⟩]).suppresses
      ⟨id2, text, t2, sender⟩ = false := by
    cases hs : (inboxStore.mk [⟨id1, text, t1, sender⟩]).suppresses
      ⟨id2, text, t2, sender⟩ with
    | false => rfl
    | true =>
      rw [suppresses_iff] at hs
      obtain ⟨last, hl, -, -, hd⟩ := hs
      simp only [List.getLast?_singleton, Option.some.injEq] at hl
      subst hl
      have := (absDuration_Sub_lt_Second_iff t1 t2 hsat).1 hd
      unfold Second at this
      omega
  simp only [addAll, List.foldl, h1]
  rw [Add_of_not_suppresses _ _ h2]
  simp [lastN]

/-- C3 at a failing input: two messages with the same text and sender whose
timestamps are `2^63` ns (more than 292 years, so far more than 1000 ms)
apart, the later one added second. `time.Sub` saturates to the minimum
duration, `absDuration` negates it to itself, the negative value is below one
second, and the second message is dropped: one entry is left, not two. -/
theorem C3_saturated_difference_collapses :
    1000000000 ≤ |(Time.mk 0).nanos - (Time.mk (2 ^ 63)).nanos| ∧
    (Time.mk 0).Sub (Time.mk (2 ^ 63)) = minDuration ∧
    absDuration minDuration = minDuration ∧
    (addAll newInboxStore
        [⟨"1", "hi", ⟨0⟩, "k"⟩, ⟨"2", "hi", ⟨2 ^ 63⟩, "k"⟩]).messages
      = [⟨"1", "hi", ⟨0⟩, "k"⟩] := by
  refine ⟨by norm_num, by decide, by decide, by decide⟩

/-! ## Theorems: the identity map -/

section MapLemmas

variable {K V : Type} [DecidableEq K]

theorem mapGet_eq_none_iff (m : List (K × V)) (k : K) :
    mapGet m k = none ↔ k ∉ m.map Prod.fst := by
  induction m with
  | nil => simp [mapGet]
  | cons p rest ih =>
    obtain ⟨k1, v1⟩ := p
    by_cases h : k1 = k
    · simp [mapGet, h]
    · have h2 : ¬ k = k1 := fun e => h e.symm
      simp [mapGet, h, h2, ih]

theorem mapGet_mapSet_self (m : List (K × V)) (k : K) (v : V) :
    mapGet (mapSet m k v) k = some v := by
  induction m with
  | nil => simp [mapSet, mapGet]
  | cons p rest ih =>
    obtain ⟨k1, v1⟩ := p
    by_cases h : k1 = k
    · simp [mapSet, mapGet, h]
    · simp [mapSet, mapGet, h, ih]

theorem mapGet_mapSet_ne (m : List (K × V)) (k k2 : K) (v : V) (hne : k2 ≠ k) :
    mapGet (mapSet m k v) k2 = mapGet m k2 := by
  induction m with
  | nil =>
    have : ¬ k = k2 := fun e => hne e.symm
    simp [mapSet, mapGet, this]
  | cons p rest ih =>
    obtain ⟨k1, v1⟩ := p
    by_cases h : k1 = k
    · subst h
      have : ¬ k1 = k2 := fun e => hne e.symm
      simp [mapSet, mapGet, this]
    · by_cases h2 : k1 = k2
      · subst h2
        simp [mapSet, mapGet, h]
      · simp [mapSet, mapGet, h, h2, ih]

theorem mapSet_of_absent (m : List (K × V)) (k : K) (v : V)
    (h : mapGet m k = none) : mapSet m k v = m ++ [(k, v)] := by
  induction m with
  | nil => simp [mapSet]
  | cons p rest ih =>
    obtain ⟨k1, v1⟩ := p
    by_cases h1 : k1 = k
    · simp [mapGet, h1] at h
    · simp only [mapGet, h1, if_false] at h
      simp [mapSet, h1, ih h]

theorem mapGet_mapModify_self (m : List (K × V)) (k : K) (f : V → V) :
    mapGet (mapModify m k f) k = (mapGet m k).map f := by
  induction m with
  | nil => simp [mapModify, mapGet]
  | cons p rest ih =>
    obtain ⟨k1, v1⟩ := p
    by_cases h : k1 = k
    · simp [mapModify, mapGet, h]
    · simp [mapModify, mapGet, h, ih]

theorem mapGet_mapModify_ne (m : List (K × V)) (k k2 : K) (f : V → V)
    (hne : k2 ≠ k) : mapGet (mapModify m k f) k2 = mapGet m k2 := by
  induction m with
  | nil => simp [mapModify, mapGet]
  | cons p rest ih =>
    obtain ⟨k1, v1⟩ := p
    by_cases h : k1 = k
    · subst h
      have : ¬ k1 = k2 := fun e => hne e.symm
      simp [mapModify, mapGet, this]
    · by_cases h2 : k1 = k2
      · subst h2
        simp [mapModify, mapGet, h]
      · simp [mapModify, mapGet, h, h2, ih]

theorem keys_mapModify (m : List (K × V)) (k : K) (f : V → V) :
    (mapModify m k f).map Prod.fst = m.map Prod.fst := by
  induction m with
  | nil => simp [mapModify]
  | cons p rest ih =>
    obtain ⟨k1, v1⟩ := p
    by_cases h : k1 = k
    · simp [mapModify, h]
    · simp [mapModify, h, ih]

end MapLemmas

/-! ## Theorems: receive bridge -/

section Bridge

variable {ID Round : Type} [DecidableEq ID]

theorem step_eq_receive (lib : Lib ID) (r : receiver ID Round)
    (e : RecvEvent ID Round) :
    ∃ replyID nickname partnerKey dmToken codeset round mType,
      r.step lib e = r.receive lib e.messageID replyID nickname (e.text lib)
        partnerKey e.senderKey dmToken codeset e.timestamp round mType e.status := by
  cases e with
  | Receive m n t pk sk tok cs ts rd mt st =>
    exact ⟨lib.zeroID, n, pk, tok, cs, rd, mt, rfl⟩
  | ReceiveText m n t pk sk tok cs ts rd st =>
    exact ⟨lib.zeroID, n, pk, tok, cs, rd, lib.TextType, rfl⟩
  | ReceiveReply m tgt n t pk sk tok cs ts rd st =>
    exact ⟨tgt, n, pk, tok, cs, rd, lib.TextType, rfl⟩
  | ReceiveReaction m tgt n t pk sk tok cs ts rd st =>
    exact ⟨tgt, n, pk, tok, cs, rd, lib.ReactionType, rfl⟩

/-- A first arrival: the counter is incremented, a record carrying the new
number is stored and the derived message is handed to the inbox store. -/
theorem step_absent (lib : Lib ID) (r : receiver ID Round)
    (e : RecvEvent ID Round) (h : mapGet r.msgData e.messageID = none) :
    (r.step lib e).2 = (r.uuid + 1) % 2 ^ 64 ∧
    (r.step lib e).1.uuid = (r.uuid + 1) % 2 ^ 64 ∧
    (r.step lib e).1.store = r.store.Add (e.inboxMessage lib) ∧
    ∃ record : msgInfo ID Round, record.uuid = (r.uuid + 1) % 2 ^ 64 ∧
      (r.step lib e).1.msgData = mapSet r.msgData e.messageID record := by
  obtain ⟨rp, n, pk, tok, cs, rd, mt, hstep⟩ := step_eq_receive lib r e
  rw [hstep]
  unfold receiver.receive
  rw [h]
  exact ⟨rfl, rfl, rfl, _, rfl, rfl⟩

/-- A repeat: only the status of the record of the identity is written. -/
theorem step_present (lib : Lib ID) (r : receiver ID Round)
    (e : RecvEvent ID Round) (msg : msgInfo ID Round)
    (h : mapGet r.msgData e.messageID = some msg) :
    r.step lib e =
      ({ msgData := mapModify r.msgData e.messageID
           (fun x => { x with status := e.status })
         uuid := r.uuid
         store := r.store }, msg.uuid) := by
  obtain ⟨rp, n, pk, tok, cs, rd, mt, hstep⟩ := step_eq_receive lib r e
  rw [hstep]
  unfold receiver.receive
  rw [h]

theorem run_append (lib : Lib ID) (r : receiver ID Round)
    (es fs : List (RecvEvent ID Round)) :
    receiver.run lib r (es ++ fs) = receiver.run lib (receiver.run lib r es) fs := by
  induction es generalizing r with
  | nil => rfl
  | cons e es ih => simp [receiver.run, ih]

theorem uuidOf_step (lib : Lib ID) (r : receiver ID Round)
    (e : RecvEvent ID Round) (k : ID) (u : Nat) (h : r.uuidOf k = some u) :
    (r.step lib e).1.uuidOf k = some u := by
  unfold receiver.uuidOf at h ⊢
  cases hg : mapGet r.msgData e.messageID with
  | none =>
    obtain ⟨-, -, -, record, -, hm⟩ := step_absent lib r e hg
    have hne : k ≠ e.messageID := by
      intro hk
      rw [hk, hg] at h
      simp at h
    rw [hm, mapGet_mapSet_ne _ _ _ _ hne]
    exact h
  | some msg =>
    rw [step_present lib r e msg hg]
    by_cases hk : k = e.messageID
    · subst hk
      simp only [mapGet_mapModify_self]
      rw [hg] at h ⊢
      simpa using h
    · simp only [mapGet_mapModify_ne _ _ _ _ hk]
      exact h

theorem uuidOf_run (lib : Lib ID) (es : List (RecvEvent ID Round))
    (r : receiver ID Round) (k : ID) (u : Nat) (h : r.uuidOf k = some u) :
    (receiver.run lib r es).uuidOf k = some u := by
  induction es generalizing r with
  | nil => exact h
  | cons e es ih => exact ih _ (uuidOf_step lib r e k u h)

theorem step_returns_uuidOf (lib : Lib ID) (r : receiver ID Round)
    (e : RecvEvent ID Round) :
    (r.step lib e).1.uuidOf e.messageID = some (r.step lib e).2 := by
  unfold receiver.uuidOf
  cases hg : mapGet r.msgData e.messageID with
  | none =>
    obtain ⟨h2, -, -, record, hu, hm⟩ := step_absent lib r e hg
    rw [hm, mapGet_mapSet_self, h2]
    simp [hu]
  | some msg =>
    rw [step_present lib r e msg hg]
    simp [mapGet_mapModify_self, hg]

theorem store_run_same_id (lib : Lib ID) (m : ID)
    (es : List (RecvEvent ID Round)) (r : receiver ID Round)
    (hm : mapGet r.msgData m ≠ none) (hes : ∀ x ∈ es, x.messageID = m) :
    (receiver.run lib r es).store = r.store := by
  induction es generalizing r with
  | nil => rfl
  | cons e es ih =>
    have he : e.messageID = m := hes e (List.mem_cons_self _ _)
    cases hg : mapGet r.msgData m with
    | none => exact absurd hg hm
    | some msg =>
      have hstep := step_present lib r e msg (by rw [he]; exact hg)
      simp only [receiver.run]
      rw [ih (r.step lib e).1 ?_ (fun x hx => hes x (List.mem_cons_of_mem _ hx))]
      · rw [hstep]
      · rw [hstep, he]
        simp [mapGet_mapModify_self, hg]

/-- C4: a non-empty sequence of receive events that all carry the same
messageID, applied to a fresh receiver over an empty store, leaves exactly
one message in the store: its ID renders the messageID and its text,
timestamp and sender are those of the first event. -/
theorem C4_same_identity_one_message (lib : Lib ID) (m : ID)
    (e : RecvEvent ID Round) (es : List (RecvEvent ID Round))
    (he : e.messageID = m) (hes : ∀ x ∈ es, x.messageID = m) :
    (receiver.run lib (newReceiver newInboxStore) (e :: es)).store.messages
      = [{ ID := lib.render m
           Text := e.text lib
           Timestamp := e.timestamp
           Sender := lib.encodeKey e.senderKey }] := by
  have hg : mapGet (newReceiver newInboxStore : receiver ID Round).msgData e.messageID
      = none := rfl
  obtain ⟨-, -, hstore, record, -, hmap⟩ := step_absent lib _ e hg
  simp only [receiver.run]
  rw [store_run_same_id lib m es _ ?_ hes, hstore]
  · simp [newReceiver, newInboxStore, inboxStore.Add, inboxStore.suppresses,
      RecvEvent.inboxMessage, he]
  · rw [hmap, he, mapGet_mapSet_self]
    simp

/-- Witness of C4: a text and then a reaction under the same identity. -/
theorem C4_same_identity_one_message_witness :
    (receiver.run demoLib
        (newReceiver newInboxStore)
        [(RecvEvent.ReceiveText "m1" "nick" "hello" [] [] 0 0 ⟨5⟩ () 0 :
            RecvEvent String Unit),
          RecvEvent.ReceiveReaction "m1" "m0" "nick" "ok" [] [] 0 0 ⟨9⟩ () 1]
      ).store.messages
      = [{ ID := "m1", Text := "hello", Timestamp := ⟨5⟩, Sender := "" }] :=
  C4_same_identity_one_message
    demoLib "m1"
    (RecvEvent.ReceiveText "m1" "nick" "hello" [] [] 0 0 ⟨5⟩ () 0)
    [RecvEvent.ReceiveReaction "m1" "m0" "nick" "ok" [] [] 0 0 ⟨9⟩ () 1]
    rfl (by simp [RecvEvent.messageID])

/-- C6: the value returned by a receive entry point is the sequence number
of the record stored under the event's messageID after the call: the newly
allocated number (the incremented counter) on a first observation, the
number of the existing record on a later one. Hence a later event with the
same messageID returns the same number, whatever events come in between. -/
theorem C6_returns_sequence_number (lib : Lib ID) (r : receiver ID Round)
    (e : RecvEvent ID Round) :
    (r.step lib e).1.uuidOf e.messageID = some (r.step lib e).2 ∧
    (mapGet r.msgData e.messageID = none →
      (r.step lib e).2 = (r.uuid + 1) % 2 ^ 64 ∧
      (r.step lib e).1.uuid = (r.step lib e).2) ∧
    (∀ msg, mapGet r.msgData e.messageID = some msg →
      (r.step lib e).2 = msg.uuid) ∧
    (∀ (between : List (RecvEvent ID Round)) (e2 : RecvEvent ID Round),
      e2.messageID = e.messageID →
      ((receiver.run lib (r.step lib e).1 between).step lib e2).2
        = (r.step lib e).2) := by
  refine ⟨step_returns_uuidOf lib r e, ?_, ?_, ?_⟩
  · intro h
    obtain ⟨h2, h1, -, -⟩ := step_absent lib r e h
    exact ⟨h2, by rw [h1, h2]⟩
  · intro msg h
    rw [step_present lib r e msg h]
  · intro between e2 hid
    have h1 := uuidOf_run lib between _ _ _ (step_returns_uuidOf lib r e)
    have h2 := step_returns_uuidOf lib (receiver.run lib (r.step lib e).1 between) e2
    have h3 := uuidOf_step lib _ e2 _ _ h1
    rw [hid, h3] at h2
    exact (Option.some.inj h2).symm

/-- C7: when a record already exists under the messageID of a receive event,
the call changes the status field of that record to the status of the event
and nothing else: the other fields of the record, every other record, the
set of identities with a record, the counter and the inbox store are as
before. -/
theorem C7_repeat_changes_status_only (lib : Lib ID) (r : receiver ID Round)
    (e : RecvEvent ID Round) (msg : msgInfo ID Round)
    (h : mapGet r.msgData e.messageID = some msg) :
    mapGet (r.step lib e).1.msgData e.messageID
        = some { msg with status := e.status } ∧
    (∀ k, k ≠ e.messageID →
      mapGet (r.step lib e).1.msgData k = mapGet r.msgData k) ∧
    (r.step lib e).1.msgData.map Prod.fst = r.msgData.map Prod.fst ∧
    (r.step lib e).1.uuid = r.uuid ∧
    (r.step lib e).1.store = r.store := by
  rw [step_present lib r e msg h]
  refine ⟨?_, ?_, ?_, rfl, rfl⟩
  · simp [mapGet_mapModify_self, h]
  · intro k hk
    exact mapGet_mapModify_ne _ _ _ _ hk
  · exact keys_mapModify _ _ _

/-- Witness of C7: a receiver holding one record under "a", and a reaction
event that carries the identity "a" again with status 2. -/
theorem C7_repeat_changes_status_only_witness :
    mapGet
        (({ msgData := [("a", ⟨"a", "", "n", "hi", [], [7], 0, 0, ⟨0⟩, (), 1, 0, 1⟩)]
            uuid := 1
            store := ⟨[⟨"a", "hi", ⟨0⟩, "7"⟩]⟩ } : receiver String Unit).step demoLib
          (RecvEvent.ReceiveReaction "a" "z" "n2" "up" [] [8] 5 6 ⟨9⟩ () 2)).1.msgData
        (RecvEvent.messageID
          (RecvEvent.ReceiveReaction "a" "z" "n2" "up" [] [8] 5 6 ⟨9⟩ () 2 :
            RecvEvent String Unit))
      = some ⟨"a", "", "n", "hi", [], [7], 0, 0, ⟨0⟩, (), 1, 2, 1⟩ ∧
    (({ msgData := [("a", ⟨"a", "", "n", "hi", [], [7], 0, 0, ⟨0⟩, (), 1, 0, 1⟩)]
        uuid := 1
        store := ⟨[⟨"a", "hi", ⟨0⟩, "7"⟩]⟩ } : receiver String Unit).step demoLib
      (RecvEvent.ReceiveReaction "a" "z" "n2" "up" [] [8] 5 6 ⟨9⟩ () 2)).1.store
      = ⟨[⟨"a", "hi", ⟨0⟩, "7"⟩]⟩ :=
  have h := C7_repeat_changes_status_only demoLib
    ({ msgData := [("a", ⟨"a", "", "n", "hi", [], [7], 0, 0, ⟨0⟩, (), 1, 0, 1⟩)]
       uuid := 1
       store := ⟨[⟨"a", "hi", ⟨0⟩, "7"⟩]⟩ } : receiver String Unit)
    (RecvEvent.ReceiveReaction "a" "z" "n2" "up" [] [8] 5 6 ⟨9⟩ () 2)
    ⟨"a", "", "n", "hi", [], [7], 0, 0, ⟨0⟩, (), 1, 0, 1⟩
    rfl
  ⟨h.1, h.2.2.2.2⟩

/-! ### Order of first observation -/

theorem observe_extends (ids : List ID) (seen : List ID) :
    ∃ extra, observe seen ids = seen ++ extra := by
  induction ids generalizing seen with
  | nil => exact ⟨[], by simp [observe]⟩
  | cons a rest ih =>
    by_cases h : a ∈ seen
    · simp only [observe, h, if_true]
      exact ih seen
    · simp only [observe, h, if_false]
      obtain ⟨extra, hx⟩ := ih (seen ++ [a])
      exact ⟨a :: extra, by rw [hx]; simp⟩

theorem length_le_observe (ids : List ID) (seen : List ID) :
    seen.length ≤ (observe seen ids).length := by
  obtain ⟨extra, hx⟩ := observe_extends ids seen
  rw [hx]
  simp

theorem observe_append (ids1 ids2 : List ID) (seen : List ID) :
    observe seen (ids1 ++ ids2) = observe (observe seen ids1) ids2 := by
  induction ids1 generalizing seen with
  | nil => rfl
  | cons a rest ih =>
    by_cases h : a ∈ seen
    · simp only [List.cons_append, observe, h, if_true]
      exact ih seen
    · simp only [List.cons_append, observe, h, if_false]
      exact ih _

theorem mem_observe (ids : List ID) (seen : List ID) (x : ID) :
    x ∈ observe seen ids ↔ x ∈ seen ∨ x ∈ ids := by
  induction ids generalizing seen with
  | nil => simp [observe]
  | cons a rest ih =>
    by_cases h : a ∈ seen
    · simp only [observe, h, if_true, ih, List.mem_cons]
      constructor
      · rintro (h1 | h1)
        · exact Or.inl h1
        · exact Or.inr (Or.inr h1)
      · rintro (h1 | h1 | h1)
        · exact Or.inl h1
        · exact Or.inl (h1 ▸ h)
        · exact Or.inr h1
    · simp only [observe, h, if_false, ih, List.mem_append, List.mem_singleton,
        List.mem_cons]
      tauto

theorem nodup_observe (ids : List ID) (seen : List ID) (h : seen.Nodup) :
    (observe seen ids).Nodup := by
  induction ids generalizing seen with
  | nil => exact h
  | cons a rest ih =>
    by_cases ha : a ∈ seen
    · simp only [observe, ha, if_true]
      exact ih seen h
    · simp only [observe, ha, if_false]
      apply ih
      rw [List.nodup_append]
      refine ⟨h, List.nodup_singleton a, ?_⟩
      intro x hx hx2
      rw [List.mem_singleton] at hx2
      exact ha (hx2 ▸ hx)

theorem numbered_new (store : inboxStore) :
    Numbered (newReceiver store : receiver ID Round) [] :=
  ⟨rfl, rfl, fun _ _ h => by simp [newReceiver, mapGet] at h⟩

theorem numbered_step_present (lib : Lib ID) (r : receiver ID Round)
    (seen : List ID) (e : RecvEvent ID Round) (hn : Numbered r seen)
    (hin : e.messageID ∈ seen) :
    Numbered (r.step lib e).1 seen ∧
    (r.step lib e).2 = seen.indexOf e.messageID + 1 ∧
    (r.step lib e).1.store = r.store := by
  obtain ⟨hkeys, huuid, hrec⟩ := hn
  cases hg : mapGet r.msgData e.messageID with
  | none =>
    rw [mapGet_eq_none_iff, hkeys] at hg
    exact absurd hin hg
  | some msg =>
    rw [step_present lib r e msg hg]
    refine ⟨⟨?_, huuid, ?_⟩, hrec _ _ hg, rfl⟩
    · show (mapModify r.msgData e.messageID _).map Prod.fst = seen
      rw [keys_mapModify, hkeys]
    · intro k record hk
      by_cases hke : k = e.messageID
      · subst hke
        simp only [mapGet_mapModify_self, hg, Option.map_some', Option.some.injEq] at hk
        rw [← hk]
        exact hrec e.messageID msg hg
      · simp only [mapGet_mapModify_ne _ _ _ _ hke] at hk
        exact hrec _ _ hk

theorem numbered_step_absent (lib : Lib ID) (r : receiver ID Round)
    (seen : List ID) (e : RecvEvent ID Round) (hn : Numbered r seen)
    (hnot : e.messageID ∉ seen) (hlt : seen.length + 1 < 2 ^ 64) :
    Numbered (r.step lib e).1 (seen ++ [e.messageID]) ∧
    (r.step lib e).2 = (seen ++ [e.messageID]).indexOf e.messageID + 1 ∧
    (r.step lib e).1.store = r.store.Add (e.inboxMessage lib) := by
  obtain ⟨hkeys, huuid, hrec⟩ := hn
  have hg : mapGet r.msgData e.messageID = none := by
    rw [mapGet_eq_none_iff, hkeys]
    exact hnot
  obtain ⟨hret, hu, hstore, record, hru, hmap⟩ := step_absent lib r e hg
  have hmod : (r.uuid + 1) % 2 ^ 64 = seen.length + 1 := by
    rw [huuid]
    exact Nat.mod_eq_of_lt hlt
  have hidx : (seen ++ [e.messageID]).indexOf e.messageID = seen.length := by
    rw [List.indexOf_append_of_not_mem hnot]
    simp
  refine ⟨⟨?_, ?_, ?_⟩, ?_, hstore⟩
  · rw [hmap, mapSet_of_absent _ _ _ hg]
    simp [hkeys]
  · rw [hu, hmod]
    simp
  · intro k rec2 hk
    rw [hmap] at hk
    by_cases hke : k = e.messageID
    · subst hke
      rw [mapGet_mapSet_self] at hk
      rw [← Option.some.inj hk, hru, hmod, hidx]
    · rw [mapGet_mapSet_ne _ _ _ _ hke] at hk
      have hks : k ∈ seen := by
        by_contra hc
        rw [← hkeys, ← mapGet_eq_none_iff] at hc
        rw [hc] at hk
        exact Option.noConfusion hk
      rw [List.indexOf_append_of_mem hks]
      exact hrec _ _ hk
  · rw [hret, hmod, hidx]

theorem numbered_run (lib : Lib ID) (es : List (RecvEvent ID Round))
    (r : receiver ID Round) (seen : List ID) (hn : Numbered r seen)
    (hlt : (observe seen (es.map RecvEvent.messageID)).length < 2 ^ 64) :
    Numbered (receiver.run lib r es) (observe seen (es.map RecvEvent.messageID)) ∧
    receiver.returns lib r es = es.map (fun e =>
      (observe seen (es.map RecvEvent.messageID)).indexOf e.messageID + 1) := by
  induction es generalizing r seen with
  | nil => exact ⟨hn, rfl⟩
  | cons e es ih =>
    by_cases hin : e.messageID ∈ seen
    · have hobs : observe seen ((e :: es).map RecvEvent.messageID)
          = observe seen (es.map RecvEvent.messageID) := by
        simp [observe, hin]
      rw [hobs] at hlt ⊢
      obtain ⟨hn2, hret, -⟩ := numbered_step_present lib r seen e hn hin
      obtain ⟨h1, h2⟩ := ih _ seen hn2 hlt
      refine ⟨h1, ?_⟩
      simp only [receiver.returns, List.map_cons, h2, hret]
      congr 1
      obtain ⟨extra, hx⟩ := observe_extends (es.map RecvEvent.messageID) seen
      rw [hx, List.indexOf_append_of_mem hin]
    · have hobs : observe seen ((e :: es).map RecvEvent.messageID)
          = observe (seen ++ [e.messageID]) (es.map RecvEvent.messageID) := by
        simp [observe, hin]
      rw [hobs] at hlt ⊢
      have hlen := length_le_observe (es.map RecvEvent.messageID) (seen ++ [e.messageID])
      have hlt2 : seen.length + 1 < 2 ^ 64 := by
        simp only [List.length_append, List.length_singleton] at hlen
        omega
      obtain ⟨hn2, hret, -⟩ := numbered_step_absent lib r seen e hn hin hlt2
      obtain ⟨h1, h2⟩ := ih _ _ hn2 hlt
      refine ⟨h1, ?_⟩
      simp only [receiver.returns, List.map_cons, h2, hret]
      congr 1
      obtain ⟨extra, hx⟩ := observe_extends (es.map RecvEvent.messageID)
        (seen ++ [e.messageID])
      have hmem : e.messageID ∈ seen ++ [e.messageID] := by simp
      rw [hx, List.indexOf_append_of_mem hmem]

/-- C5: for receive events applied one after the other to a receiver made
by `newReceiver`, with fewer than `2^64` distinct identities: every call
returns one plus the position of its messageID in the order of first
observation, and the record of the k-th distinct identity (counting from 1)
holds the number k. So the numbers of distinct identities are pairwise
different and strictly increasing in order of first observation. -/
theorem C5_sequence_numbers (lib : Lib ID) (store : inboxStore)
    (es : List (RecvEvent ID Round))
    (hlt : (firstSeen (es.map RecvEvent.messageID)).length < 2 ^ 64) :
    receiver.returns lib (newReceiver store) es = es.map (fun e =>
      (firstSeen (es.map RecvEvent.messageID)).indexOf e.messageID + 1) ∧
    (∀ (k : Nat) (hk : k < (firstSeen (es.map RecvEvent.messageID)).length),
      (receiver.run lib (newReceiver store) es).uuidOf
        ((firstSeen (es.map RecvEvent.messageID)).get ⟨k, hk⟩) = some (k + 1)) ∧
    (∀ (j k : Nat) (hk : k < (firstSeen (es.map RecvEvent.messageID)).length)
      (hj : j < k),
      ∃ a b,
        (receiver.run lib (newReceiver store) es).uuidOf
          ((firstSeen (es.map RecvEvent.messageID)).get ⟨j, lt_trans hj hk⟩) = some a ∧
        (receiver.run lib (newReceiver store) es).uuidOf
          ((firstSeen (es.map RecvEvent.messageID)).get ⟨k, hk⟩) = some b ∧
        a < b) ∧
    (receiver.run lib (newReceiver store) es).uuid
      = (firstSeen (es.map RecvEvent.messageID)).length := by
  obtain ⟨⟨hkeys, huuid, hrec⟩, hret⟩ :=
    numbered_run lib es (newReceiver store) [] (numbered_new store) hlt
  have hnd : (firstSeen (es.map RecvEvent.messageID)).Nodup :=
    nodup_observe _ [] List.nodup_nil
  have hkth : ∀ (k : Nat) (hk : k < (firstSeen (es.map RecvEvent.messageID)).length),
      (receiver.run lib (newReceiver store) es).uuidOf
        ((firstSeen (es.map RecvEvent.messageID)).get ⟨k, hk⟩) = some (k + 1) := by
    intro k hk
    unfold receiver.uuidOf
    cases hg : mapGet (receiver.run lib (newReceiver store) es).msgData
        ((firstSeen (es.map RecvEvent.messageID)).get ⟨k, hk⟩) with
    | none =>
      rw [mapGet_eq_none_iff, hkeys] at hg
      exact absurd (List.get_mem _ _ _) hg
    | some record =>
      have h3 : record.uuid = (firstSeen (es.map RecvEvent.messageID)).indexOf
          ((firstSeen (es.map RecvEvent.messageID)).get ⟨k, hk⟩) + 1 := hrec _ _ hg
      rw [List.get_indexOf hnd ⟨k, hk⟩] at h3
      simp [h3]
  refine ⟨hret, hkth, ?_, huuid⟩
  intro j k hk hj
  exact ⟨j + 1, k + 1, hkth j (lt_trans hj hk), hkth k hk, by omega⟩

/-- Witness of C5: identities a, b, a, c are numbered 1, 2, 1, 3. -/
theorem C5_sequence_numbers_witness :
    receiver.returns demoLib
        (newReceiver newInboxStore)
        [(RecvEvent.ReceiveText "a" "" "x" [] [] 0 0 ⟨0⟩ () 0 : RecvEvent String Unit),
          RecvEvent.ReceiveText "b" "" "y" [] [] 0 0 ⟨0⟩ () 0,
          RecvEvent.ReceiveText "a" "" "x" [] [] 0 0 ⟨0⟩ () 1,
          RecvEvent.ReceiveText "c" "" "z" [] [] 0 0 ⟨0⟩ () 0]
      = [1, 2, 1, 3] :=
  (C5_sequence_numbers demoLib
    newInboxStore
    [(RecvEvent.ReceiveText "a" "" "x" [] [] 0 0 ⟨0⟩ () 0 : RecvEvent String Unit),
      RecvEvent.ReceiveText "b" "" "y" [] [] 0 0 ⟨0⟩ () 0,
      RecvEvent.ReceiveText "a" "" "x" [] [] 0 0 ⟨0⟩ () 1,
      RecvEvent.ReceiveText "c" "" "z" [] [] 0 0 ⟨0⟩ () 0]
    (by decide)).1.trans (by decide)

/-! ### Retention below the capacity -/

theorem length_Add_le (s : inboxStore) (m : InboxMessage) :
    (s.Add m).messages.length ≤ s.messages.length + 1 := by
  cases hs : s.suppresses m with
  | true => rw [Add_of_suppresses s m hs]; omega
  | false =>
    rw [Add_of_not_suppresses s m hs, length_lastN]
    simp

theorem Add_of_not_suppresses_of_lt (s : inboxStore) (m : InboxMessage)
    (hs : s.suppresses m = false) (hlen : s.messages.length < 200) :
    (s.Add m).messages = s.messages ++ [m] := by
  rw [Add_of_not_suppresses s m hs, lastN_of_length_le]
  simp
  omega

theorem mem_Add_of_lt (s : inboxStore) (m x : InboxMessage)
    (hlen : s.messages.length < 200) (hx : x ∈ s.messages) :
    x ∈ (s.Add m).messages := by
  cases hs : s.suppresses m with
  | true => rw [Add_of_suppresses s m hs]; exact hx
  | false =>
    rw [Add_of_not_suppresses_of_lt s m hs hlen]
    exact List.mem_append_left _ hx

theorem keys_step (lib : Lib ID) (r : receiver ID Round) (e : RecvEvent ID Round) :
    (r.step lib e).1.msgData.map Prod.fst
      = observe (r.msgData.map Prod.fst) [e.messageID] := by
  cases hg : mapGet r.msgData e.messageID with
  | none =>
    obtain ⟨-, -, -, record, -, hmap⟩ := step_absent lib r e hg
    rw [hmap, mapSet_of_absent _ _ _ hg]
    rw [mapGet_eq_none_iff] at hg
    simp [observe, hg]
  | some msg =>
    rw [step_present lib r e msg hg]
    have hin : e.messageID ∈ r.msgData.map Prod.fst := by
      by_contra hc
      rw [← mapGet_eq_none_iff, hg] at hc
      exact Option.noConfusion hc
    simp only [observe, hin, if_true]
    exact keys_mapModify _ _ _

theorem keys_run (lib : Lib ID) (es : List (RecvEvent ID Round))
    (r : receiver ID Round) :
    (receiver.run lib r es).msgData.map Prod.fst
      = observe (r.msgData.map Prod.fst) (es.map RecvEvent.messageID) := by
  induction es generalizing r with
  | nil => rfl
  | cons e es ih =>
    simp only [receiver.run, List.map_cons]
    rw [ih, keys_step]
    exact (observe_append [e.messageID] (es.map RecvEvent.messageID) _).symm

theorem store_length_step (lib : Lib ID) (r : receiver ID Round)
    (e : RecvEvent ID Round)
    (h : r.store.messages.length ≤ (r.msgData.map Prod.fst).length) :
    (r.step lib e).1.store.messages.length
      ≤ ((r.step lib e).1.msgData.map Prod.fst).length := by
  cases hg : mapGet r.msgData e.messageID with
  | none =>
    obtain ⟨-, -, hstore, record, -, hmap⟩ := step_absent lib r e hg
    rw [hstore, hmap, mapSet_of_absent _ _ _ hg]
    have := length_Add_le r.store (e.inboxMessage lib)
    simp only [List.length_map, List.length_append, List.length_singleton] at h ⊢
    omega
  | some msg =>
    rw [step_present lib r e msg hg]
    show r.store.messages.length ≤ ((mapModify r.msgData e.messageID _).map Prod.fst).length
    rw [keys_mapModify]
    exact h

theorem store_length_run (lib : Lib ID) (es : List (RecvEvent ID Round))
    (r : receiver ID Round)
    (h : r.store.messages.length ≤ (r.msgData.map Prod.fst).length) :
    (receiver.run lib r es).store.messages.length
      ≤ ((receiver.run lib r es).msgData.map Prod.fst).length := by
  induction es generalizing r with
  | nil => exact h
  | cons e es ih => exact ih _ (store_length_step lib r e h)

theorem mem_store_run (lib : Lib ID) (x : InboxMessage)
    (es : List (RecvEvent ID Round)) (r : receiver ID Round)
    (hcap : (observe (r.msgData.map Prod.fst) (es.map RecvEvent.messageID)).length ≤ 200)
    (hlen : r.store.messages.length ≤ (r.msgData.map Prod.fst).length)
    (hx : x ∈ r.store.messages) :
    x ∈ (receiver.run lib r es).store.messages := by
  induction es generalizing r with
  | nil => exact hx
  | cons e es ih =>
    simp only [receiver.run]
    have hk := keys_step lib r e
    have hcap2 : (observe ((r.step lib e).1.msgData.map Prod.fst)
        (es.map RecvEvent.messageID)).length ≤ 200 := by
      rw [hk, ← observe_append]
      exact hcap
    apply ih _ hcap2 (store_length_step lib r e hlen)
    cases hg : mapGet r.msgData e.messageID with
    | none =>
      obtain ⟨-, -, hstore, record, -, hmap⟩ := step_absent lib r e hg
      rw [hstore]
      apply mem_Add_of_lt _ _ _ _ hx
      have hkl : ((r.step lib e).1.msgData.map Prod.fst).length
          = (r.msgData.map Prod.fst).length + 1 := by
        rw [hmap, mapSet_of_absent _ _ _ hg]
        simp
      have h1 := length_le_observe (es.map RecvEvent.messageID)
        ((r.step lib e).1.msgData.map Prod.fst)
      omega
    | some msg =>
      rw [step_present lib r e msg hg]
      exact hx

/-- C8 as amended: with at most 200 distinct identities in a sequence of
receive events on a fresh receiver over an empty store, every observed
identity whose first arrival was not suppressed by the near-duplicate rule
of the store has its message, with the rendered identity as ID, in the store
at the end. -/
theorem C8_retained_unless_suppressed (lib : Lib ID)
    (pre post : List (RecvEvent ID Round)) (e : RecvEvent ID Round)
    (hcap : (firstSeen ((pre ++ e :: post).map RecvEvent.messageID)).length ≤ 200)
    (hfirst : e.messageID ∉ pre.map RecvEvent.messageID)
    (hkept : (receiver.run lib (newReceiver newInboxStore) pre).store.suppresses
      (e.inboxMessage lib) = false) :
    e.inboxMessage lib
      ∈ (receiver.run lib (newReceiver newInboxStore) (pre ++ e :: post)).store.messages ∧
    ∃ msg ∈ (receiver.run lib (newReceiver newInboxStore)
        (pre ++ e :: post)).store.messages,
      msg.ID = lib.render e.messageID := by
  have hmain : e.inboxMessage lib
      ∈ (receiver.run lib (newReceiver newInboxStore) (pre ++ e :: post)).store.messages := by
    rw [run_append]
    simp only [receiver.run]
    have hkeys := keys_run lib pre (newReceiver newInboxStore : receiver ID Round)
    have hlen := store_length_run lib pre (newReceiver newInboxStore : receiver ID Round)
      (by simp [newReceiver, newInboxStore])
    have hobs : firstSeen ((pre ++ e :: post).map RecvEvent.messageID)
        = observe (((receiver.run lib (newReceiver newInboxStore) pre).step lib e).1.msgData.map
            Prod.fst) (post.map RecvEvent.messageID) := by
      rw [keys_step, hkeys, ← observe_append, ← observe_append]
      simp [firstSeen, newReceiver]
    rw [hobs] at hcap
    have hg : mapGet (receiver.run lib (newReceiver newInboxStore) pre).msgData e.messageID
        = none := by
      rw [mapGet_eq_none_iff, hkeys, mem_observe]
      simpa [newReceiver] using hfirst
    apply mem_store_run lib _ post _ hcap (store_length_step lib _ e hlen)
    obtain ⟨-, -, hstore, record, -, hmap⟩ := step_absent lib _ e hg
    rw [hstore, Add_of_not_suppresses_of_lt _ _ hkept]
    · simp
    · have hkl : (((receiver.run lib (newReceiver newInboxStore) pre).step lib e).1.msgData.map
          Prod.fst).length
          = ((receiver.run lib (newReceiver newInboxStore) pre).msgData.map Prod.fst).length
            + 1 := by
        rw [hmap, mapSet_of_absent _ _ _ hg]
        simp
      have h1 := length_le_observe (post.map RecvEvent.messageID)
        (((receiver.run lib (newReceiver newInboxStore) pre).step lib e).1.msgData.map Prod.fst)
      omega
  exact ⟨hmain, _, hmain, rfl⟩

/-- Witness of C8 as amended: two identities with different texts. -/
theorem C8_retained_unless_suppressed_witness :
    RecvEvent.inboxMessage demoLib
        (RecvEvent.ReceiveText "b" "nick" "second" [] [7] 0 0 ⟨0⟩ () 0 :
          RecvEvent String Unit)
      ∈ (receiver.run demoLib (newReceiver newInboxStore)
          ([RecvEvent.ReceiveText "a" "nick" "first" [] [7] 0 0 ⟨0⟩ () 0]
            ++ RecvEvent.ReceiveText "b" "nick" "second" [] [7] 0 0 ⟨0⟩ () 0
              :: [])).store.messages ∧
    ∃ msg ∈ (receiver.run demoLib (newReceiver newInboxStore)
        ([RecvEvent.ReceiveText "a" "nick" "first" [] [7] 0 0 ⟨0⟩ () 0]
          ++ RecvEvent.ReceiveText "b" "nick" "second" [] [7] 0 0 ⟨0⟩ () 0
            :: [])).store.messages,
      msg.ID = demoLib.render (RecvEvent.messageID
        (RecvEvent.ReceiveText "b" "nick" "second" [] [7] 0 0 ⟨0⟩ () 0 :
          RecvEvent String Unit)) :=
  C8_retained_unless_suppressed demoLib
    [RecvEvent.ReceiveText "a" "nick" "first" [] [7] 0 0 ⟨0⟩ () 0] []
    (RecvEvent.ReceiveText "b" "nick" "second" [] [7] 0 0 ⟨0⟩ () 0)
    (by decide) (by decide) (by decide)

/-- C8 as stated fails: two distinct identities (far fewer than 200) carrying
the same text from the same sender at the same instant. The second first
arrival is suppressed by the near-duplicate rule of the store, so the
identity "b" was observed and no message with its ID is in the store. -/
theorem C8_near_duplicate_lost :
    Function.Injective demoLib.render ∧
    (firstSeen
      ([(RecvEvent.ReceiveText "a" "nick" "ok" [] [7] 0 0 ⟨0⟩ () 0 :
            RecvEvent String Unit),
          RecvEvent.ReceiveText "b" "nick" "ok" [] [7] 0 0 ⟨0⟩ () 0].map
        RecvEvent.messageID)).length ≤ 200 ∧
    (receiver.run demoLib (newReceiver newInboxStore)
        [(RecvEvent.ReceiveText "a" "nick" "ok" [] [7] 0 0 ⟨0⟩ () 0 :
            RecvEvent String Unit),
          RecvEvent.ReceiveText "b" "nick" "ok" [] [7] 0 0 ⟨0⟩ () 0]).store.messages
      = [{ ID := "a", Text := "ok", Timestamp := ⟨0⟩, Sender := "7" }] ∧
    ¬ ∃ msg ∈ (receiver.run demoLib (newReceiver newInboxStore)
        [(RecvEvent.ReceiveText "a" "nick" "ok" [] [7] 0 0 ⟨0⟩ () 0 :
            RecvEvent String Unit),
          RecvEvent.ReceiveText "b" "nick" "ok" [] [7] 0 0 ⟨0⟩ () 0]).store.messages,
      msg.ID = demoLib.render "b" := by
  refine ⟨fun a b h => h, by decide, by decide, by decide⟩

end Bridge

/-! ## Theorems: readiness gate -/

/-- C9: with the threshold 0.85 as a `float32`, the readiness test succeeds
for numReg = 17, total = 20, so the wait returns nil there, and fails for
numReg = 16, total = 20, where the wait does not return and goes on to poll
the next result. -/
theorem C9_threshold_17_of_20 :
    registrationReached registrationThreshold 17 20 = true ∧
    registrationReached registrationThreshold 16 20 = false ∧
    (∀ rest : List RegStatus,
      waitForRegistration registrationThreshold (⟨17, 20, none⟩ :: rest)
        = (.returned none, rest)) ∧
    (∀ rest : List RegStatus,
      waitForRegistration registrationThreshold (⟨16, 20, none⟩ :: rest)
        = waitForRegistration registrationThreshold rest) ∧
    waitForRegistration registrationThreshold [⟨16, 20, none⟩] = (.blocked, []) ∧
    (∀ events script, waitUntilConnected events = .returned none →
      startNetwork none events (⟨17, 20, none⟩ :: script)
        = (.returned none, script)) := by
  have h17 : registrationReached registrationThreshold 17 20 = true := by decide
  have h16 : registrationReached registrationThreshold 16 20 = false := by decide
  refine ⟨h17, h16, ?_, ?_, ?_, ?_⟩
  · intro rest
    simp [waitForRegistration, h17]
  · intro rest
    simp [waitForRegistration, h16]
  · simp [waitForRegistration, h16]
  · intro events script hc
    simp [startNetwork, hc, waitForRegistration, h17]

theorem waitUntilConnected_nil_iff (events : List ConnEvent) :
    waitUntilConnected events = .returned none ↔
      ∃ pre post, events = pre ++ ConnEvent.signal true :: post ∧
        ConnEvent.timerExpired ∉ pre := by
  induction events with
  | nil => simp [waitUntilConnected]
  | cons e es ih =>
    cases e with
    | timerExpired =>
      simp only [waitUntilConnected]
      constructor
      · intro h; cases h
      · rintro ⟨pre, post, hpre, hno⟩
        cases pre with
        | nil => simp at hpre
        | cons a pre =>
          simp only [List.cons_append, List.cons.injEq] at hpre
          exact absurd (by rw [← hpre.1]; simp) hno
    | signal b =>
      cases b with
      | true =>
        simp only [waitUntilConnected, true_iff]
        exact ⟨[], es, rfl, by simp⟩
      | false =>
        simp only [waitUntilConnected]
        rw [ih]
        constructor
        · rintro ⟨pre, post, hpre, hno⟩
          exact ⟨ConnEvent.signal false :: pre, post, by simp [hpre], by simp [hno]⟩
        · rintro ⟨pre, post, hpre, hno⟩
          cases pre with
          | nil => simp at hpre
          | cons a pre =>
            simp only [List.cons_append, List.cons.injEq] at hpre
            exact ⟨pre, post, hpre.2, fun h => hno (List.mem_cons_of_mem _ h)⟩

theorem waitUntilConnected_timeout_iff (events : List ConnEvent) :
    waitUntilConnected events
        = .returned (some "timeout waiting for network follower") ↔
      ∃ pre post, events = pre ++ ConnEvent.timerExpired :: post ∧
        ConnEvent.signal true ∉ pre := by
  induction events with
  | nil => simp [waitUntilConnected]
  | cons e es ih =>
    cases e with
    | timerExpired =>
      simp only [waitUntilConnected, true_iff]
      exact ⟨[], es, rfl, by simp⟩
    | signal b =>
      cases b with
      | true =>
        simp only [waitUntilConnected]
        constructor
        · intro h; cases h
        · rintro ⟨pre, post, hpre, hno⟩
          cases pre with
          | nil => simp at hpre
          | cons a pre =>
            simp only [List.cons_append, List.cons.injEq] at hpre
            exact absurd (by rw [← hpre.1]; simp) hno
      | false =>
        simp only [waitUntilConnected]
        rw [ih]
        constructor
        · rintro ⟨pre, post, hpre, hno⟩
          exact ⟨ConnEvent.signal false :: pre, post, by simp [hpre], by simp [hno]⟩
        · rintro ⟨pre, post, hpre, hno⟩
          cases pre with
          | nil => simp at hpre
          | cons a pre =>
            simp only [List.cons_append, List.cons.injEq] at hpre
            exact ⟨pre, post, hpre.2, fun h => hno (List.mem_cons_of_mem _ h)⟩

theorem waitUntilConnected_all_false (events : List ConnEvent)
    (h : ∀ e ∈ events, e = ConnEvent.signal false) :
    waitUntilConnected events = .blocked := by
  induction events with
  | nil => rfl
  | cons e es ih =>
    have he := h e (List.mem_cons_self _ _)
    subst he
    simp only [waitUntilConnected]
    exact ih (fun x hx => h x (List.mem_cons_of_mem _ hx))

/-- C10: over a finite sequence of events, `waitUntilConnected` returns nil
exactly when a true signal comes before the first timer expiry, returns the
timeout error exactly when the timer expiry comes before any true signal,
and a false signal never makes it return (it is skipped, and a sequence of
false signals alone leaves the call waiting). When it returns an error,
`startNetwork` returns that error with the whole registration script
unqueried, so it does not return nil. -/
theorem C10_connectivity_wait :
    (∀ events, waitUntilConnected events = .returned none ↔
      ∃ pre post, events = pre ++ ConnEvent.signal true :: post ∧
        ConnEvent.timerExpired ∉ pre) ∧
    (∀ events, waitUntilConnected events
        = .returned (some "timeout waiting for network follower") ↔
      ∃ pre post, events = pre ++ ConnEvent.timerExpired :: post ∧
        ConnEvent.signal true ∉ pre) ∧
    (∀ rest, waitUntilConnected (ConnEvent.signal false :: rest)
      = waitUntilConnected rest) ∧
    (∀ events, (∀ e ∈ events, e = ConnEvent.signal false) →
      waitUntilConnected events = .blocked) ∧
    (∀ events e script, waitUntilConnected events = .returned (some e) →
      startNetwork none events script = (.returned (some e), script) ∧
      (startNetwork none events script).1 ≠ .returned none) := by
  refine ⟨waitUntilConnected_nil_iff, waitUntilConnected_timeout_iff,
    fun _ => rfl, waitUntilConnected_all_false, ?_⟩
  intro events e script h
  simp [startNetwork, h]

/-! ## Theorems: second part of the inbox store -/

theorem length_Add_le_200 (s : inboxStore) (m : InboxMessage)
    (h : s.messages.length ≤ 200) : (s.Add m).messages.length ≤ 200 := by
  cases hs : s.suppresses m with
  | true => rw [Add_of_suppresses s m hs]; exact h
  | false =>
    rw [Add_of_not_suppresses s m hs, length_lastN]
    exact Nat.min_le_left _ _

theorem length_le_length_Add (s : inboxStore) (m : InboxMessage)
    (h : s.messages.length ≤ 200) : s.messages.length ≤ (s.Add m).messages.length := by
  cases hs : s.suppresses m with
  | true => rw [Add_of_suppresses s m hs]
  | false =>
    rw [Add_of_not_suppresses s m hs, length_lastN]
    simp only [List.length_append, List.length_singleton]
    omega

theorem length_addAll_le_200 (msgs : List InboxMessage) (s : inboxStore)
    (h : s.messages.length ≤ 200) : (addAll s msgs).messages.length ≤ 200 := by
  induction msgs generalizing s with
  | nil => exact h
  | cons m ms ih =>
    have hstep : addAll s (m :: ms) = addAll (s.Add m) ms := by simp [addAll]
    rw [hstep]
    exact ih _ (length_Add_le_200 s m h)

/-- C12: holding at most 200 messages is preserved by `Add` from every store
that holds at most 200 messages, and `Add` does not shorten such a store;
so any sequence of `Add` calls from such a store, in particular from
`newInboxStore`, leaves at most 200 messages. -/
theorem C12_capacity_invariant (s : inboxStore) (m : InboxMessage)
    (h : s.messages.length ≤ 200) :
    (s.Add m).messages.length ≤ 200 ∧
    s.messages.length ≤ (s.Add m).messages.length ∧
    (∀ msgs, (addAll s msgs).messages.length ≤ 200) ∧
    (∀ msgs, (addAll newInboxStore msgs).messages.length ≤ 200) :=
  ⟨length_Add_le_200 s m h, length_le_length_Add s m h,
    fun msgs => length_addAll_le_200 msgs s h,
    fun msgs => length_addAll_le_200 msgs newInboxStore (by simp [newInboxStore])⟩

/-- Witness of C12: a store with one message and a message that is appended. -/
theorem C12_capacity_invariant_witness :
    ((inboxStore.mk [⟨"a", "hi", ⟨0⟩, "k"⟩]).Add ⟨"b", "yo", ⟨1⟩, "k"⟩).messages.length
      ≤ 200 ∧
    (inboxStore.mk [⟨"a", "hi", ⟨0⟩, "k"⟩]).messages.length
      ≤ ((inboxStore.mk [⟨"a", "hi", ⟨0⟩, "k"⟩]).Add ⟨"b", "yo", ⟨1⟩, "k"⟩).messages.length :=
  have h := C12_capacity_invariant (inboxStore.mk [⟨"a", "hi", ⟨0⟩, "k"⟩])
    ⟨"b", "yo", ⟨1⟩, "k"⟩ (by decide)
  ⟨h.1, h.2.1⟩

/-- Away from the minimum duration `absDuration` is the absolute value. -/
theorem absDuration_eq_abs (d : Int) (hmin : minDuration < d) (hmax : d ≤ maxDuration) :
    absDuration d = |d| ∧ 0 ≤ absDuration d := by
  unfold absDuration wrapInt64
  unfold minDuration at hmin
  unfold maxDuration at hmax
  norm_num at hmin hmax ⊢
  by_cases h : d < 0
  · rw [if_pos h, abs_of_neg h]
    constructor <;> omega
  · rw [if_neg h, abs_of_nonneg (by omega)]
    exact ⟨rfl, by omega⟩

/-- C19 at the failing input: on the minimum duration, which `time.Sub`
returns when a difference saturates downwards, the 64-bit negation gives the
minimum back, so `absDuration` is negative there and is not the absolute
value; it is below `time.Second`. -/
theorem C19_absDuration_minimum :
    absDuration minDuration = minDuration ∧
    absDuration minDuration < 0 ∧
    absDuration minDuration ≠ |minDuration| ∧
    absDuration minDuration < Second := by
  refine ⟨by decide, by decide, ?_, by decide⟩
  have h : absDuration minDuration = minDuration := by decide
  rw [h]
  unfold minDuration
  norm_num

/-! ## Theorems: status updates and reply targets -/

section BridgeCalls

variable {ID Round : Type} [DecidableEq ID]

theorem UpdateSentStatus_absent (r : receiver ID Round) (uuid : Nat) (m : ID)
    (ts : Time) (rd : Round) (st : Nat) (h : mapGet r.msgData m = none) :
    r.UpdateSentStatus uuid m ts rd st = r := by
  unfold receiver.UpdateSentStatus
  rw [h]

theorem UpdateSentStatus_present (r : receiver ID Round) (uuid : Nat) (m : ID)
    (ts : Time) (rd : Round) (st : Nat) (msg : msgInfo ID Round)
    (h : mapGet r.msgData m = some msg) :
    r.UpdateSentStatus uuid m ts rd st =
      { msgData := mapModify r.msgData m (fun x => { x with status := st })
        uuid := r.uuid
        store := r.store } := by
  unfold receiver.UpdateSentStatus
  rw [h]

/-- C11: `UpdateSentStatus` on an identity without a record returns the
receiver as it was (same map, counter and store, so no record is created);
on an identity with a record it sets the status of that record and changes
no other field, no other record, not the set of identities, not the counter
and not the inbox store. -/
theorem C11_update_sent_status (r : receiver ID Round) (uuid : Nat) (m : ID)
    (ts : Time) (rd : Round) (st : Nat) :
    (mapGet r.msgData m = none → r.UpdateSentStatus uuid m ts rd st = r) ∧
    (∀ msg, mapGet r.msgData m = some msg →
      mapGet (r.UpdateSentStatus uuid m ts rd st).msgData m
        = some { msg with status := st } ∧
      (∀ k, k ≠ m →
        mapGet (r.UpdateSentStatus uuid m ts rd st).msgData k = mapGet r.msgData k) ∧
      (r.UpdateSentStatus uuid m ts rd st).msgData.map Prod.fst
        = r.msgData.map Prod.fst ∧
      (r.UpdateSentStatus uuid m ts rd st).uuid = r.uuid ∧
      (r.UpdateSentStatus uuid m ts rd st).store = r.store) := by
  refine ⟨UpdateSentStatus_absent r uuid m ts rd st, ?_⟩
  intro msg h
  rw [UpdateSentStatus_present r uuid m ts rd st msg h]
  refine ⟨?_, ?_, ?_, rfl, rfl⟩
  · simp [mapGet_mapModify_self, h]
  · intro k hk
    exact mapGet_mapModify_ne _ _ _ _ hk
  · exact keys_mapModify _ _ _

theorem receive_absent (lib : Lib ID) (r : receiver ID Round)
    (m replyID : ID) (nickname text : String) (pk sk : List UInt8)
    (tok cs : Nat) (ts : Time) (rd : Round) (mt st : Nat)
    (h : mapGet r.msgData m = none) :
    (r.receive lib m replyID nickname text pk sk tok cs ts rd mt st).1.msgData
      = mapSet r.msgData m
          { messageID := m
            replyID := replyID
            nickname := nickname
            content := text
            partnerKey := pk
            senderKey := sk
            dmToken := tok
            codeset := cs
            timestamp := ts
            round := rd
            mType := mt
            status := st
            uuid := (r.uuid + 1) % 2 ^ 64 } := by
  unfold receiver.receive
  rw [h]

theorem receive_present (lib : Lib ID) (r : receiver ID Round)
    (m replyID : ID) (nickname text : String) (pk sk : List UInt8)
    (tok cs : Nat) (ts : Time) (rd : Round) (mt st : Nat)
    (msg : msgInfo ID Round) (h : mapGet r.msgData m = some msg) :
    (r.receive lib m replyID nickname text pk sk tok cs ts rd mt st).1.msgData
      = mapModify r.msgData m (fun x => { x with status := st }) := by
  unfold receiver.receive
  rw [h]

/-- C16: for `ReceiveReply` and `ReceiveReaction` the choice between first
arrival and repeat is made on the record of the event's own messageID only.
Without such a record the call stores a new record whose replyID is
`reactionTo`, for every value of `reactionTo` (the identity of an existing
record and the event's own messageID included), and leaves the records of
all other identities as they were. With such a record the call only sets its
status, so the stored replyID stays, whatever `reactionTo` is. -/
theorem C16_keying_ignores_target (lib : Lib ID) (r : receiver ID Round)
    (m reactionTo : ID) (nickname text : String) (pk sk : List UInt8)
    (tok cs : Nat) (ts : Time) (rd : Round) (st : Nat) :
    (mapGet r.msgData m = none →
      mapGet (r.ReceiveReply lib m reactionTo nickname text pk sk tok cs ts rd st).1.msgData m
        = some
          { messageID := m, replyID := reactionTo, nickname := nickname, content := text,
            partnerKey := pk, senderKey := sk, dmToken := tok, codeset := cs,
            timestamp := ts, round := rd, mType := lib.TextType, status := st,
            uuid := (r.uuid + 1) % 2 ^ 64 } ∧
      mapGet (r.ReceiveReaction lib m reactionTo nickname text pk sk tok cs ts rd st).1.msgData m
        = some
          { messageID := m, replyID := reactionTo, nickname := nickname, content := text,
            partnerKey := pk, senderKey := sk, dmToken := tok, codeset := cs,
            timestamp := ts, round := rd, mType := lib.ReactionType, status := st,
            uuid := (r.uuid + 1) % 2 ^ 64 }) ∧
    (∀ msg, mapGet r.msgData m = some msg →
      mapGet (r.ReceiveReply lib m reactionTo nickname text pk sk tok cs ts rd st).1.msgData m
        = some { msg with status := st } ∧
      mapGet (r.ReceiveReaction lib m reactionTo nickname text pk sk tok cs ts rd st).1.msgData m
        = some { msg with status := st }) ∧
    (∀ k, k ≠ m →
      mapGet (r.ReceiveReply lib m reactionTo nickname text pk sk tok cs ts rd st).1.msgData k
        = mapGet r.msgData k ∧
      mapGet (r.ReceiveReaction lib m reactionTo nickname text pk sk tok cs ts rd st).1.msgData k
        = mapGet r.msgData k) := by
  refine ⟨?_, ?_, ?_⟩
  · intro h
    unfold receiver.ReceiveReply receiver.ReceiveReaction
    rw [receive_absent lib r m reactionTo nickname text pk sk tok cs ts rd _ st h,
      receive_absent lib r m reactionTo nickname text pk sk tok cs ts rd _ st h,
      mapGet_mapSet_self, mapGet_mapSet_self]
    exact ⟨rfl, rfl⟩
  · intro msg h
    unfold receiver.ReceiveReply receiver.ReceiveReaction
    rw [receive_present lib r m reactionTo nickname text pk sk tok cs ts rd _ st msg h,
      receive_present lib r m reactionTo nickname text pk sk tok cs ts rd _ st msg h,
      mapGet_mapModify_self, h]
    exact ⟨rfl, rfl⟩
  · intro k hk
    unfold receiver.ReceiveReply receiver.ReceiveReaction
    cases h : mapGet r.msgData m with
    | none =>
      rw [receive_absent lib r m reactionTo nickname text pk sk tok cs ts rd _ st h,
        receive_absent lib r m reactionTo nickname text pk sk tok cs ts rd _ st h,
        mapGet_mapSet_ne _ _ _ _ hk, mapGet_mapSet_ne _ _ _ _ hk]
      exact ⟨rfl, rfl⟩
    | some msg =>
      rw [receive_present lib r m reactionTo nickname text pk sk tok cs ts rd _ st msg h,
        receive_present lib r m reactionTo nickname text pk sk tok cs ts rd _ st msg h,
        mapGet_mapModify_ne _ _ _ _ hk]
      exact ⟨rfl, rfl⟩

end BridgeCalls

/-! ## Theorems: the registration wait -/

theorem waitForRegistration_skip (threshold : Float32) (p : RegStatus)
    (rest : List RegStatus) (h : ¬ endsWait threshold p) :
    waitForRegistration threshold (p :: rest) = waitForRegistration threshold rest := by
  unfold endsWait at h
  push_neg at h
  obtain ⟨herr, hrest⟩ := h
  by_cases ht : p.total = 0
  · simp [waitForRegistration, herr, ht]
  · have := hrest herr ht
    simp [waitForRegistration, herr, ht, this]

theorem waitForRegistration_end (threshold : Float32) (p : RegStatus)
    (rest : List RegStatus) (h : endsWait threshold p) :
    waitForRegistration threshold (p :: rest) = (.returned p.err, rest) := by
  rcases h with h | ⟨herr, ht, htest⟩
  · cases he : p.err with
    | none => exact absurd he h
    | some e => simp [waitForRegistration, he]
  · simp [waitForRegistration, herr, ht, htest]

/-- The wait returns at the first result that ends it and leaves the later
results unconsumed; with no such result it is still polling at the end. -/
theorem waitForRegistration_first_end (threshold : Float32)
    (pre post : List RegStatus) (p : RegStatus)
    (hpre : ∀ q ∈ pre, ¬ endsWait threshold q) (hp : endsWait threshold p) :
    waitForRegistration threshold (pre ++ p :: post) = (.returned p.err, post) ∧
    waitForRegistration threshold pre = (.blocked, []) := by
  refine ⟨?_, ?_⟩
  · induction pre with
    | nil => exact waitForRegistration_end threshold p post hp
    | cons q qs ih =>
      rw [List.cons_append,
        waitForRegistration_skip threshold q _ (hpre q (List.mem_cons_self _ _))]
      exact ih (fun x hx => hpre x (List.mem_cons_of_mem _ hx))
  · clear hp
    induction pre with
    | nil => rfl
    | cons q qs ih =>
      rw [waitForRegistration_skip threshold q _ (hpre q (List.mem_cons_self _ _))]
      exact ih (fun x hx => hpre x (List.mem_cons_of_mem _ hx))

/-- On a total that is not negative, a result ends the wait exactly when it
carries an error, or has no error, a total greater than zero and a
successful readiness test. -/
theorem endsWait_iff_of_count (threshold : Float32) (q : RegStatus)
    (hq : 0 ≤ q.total) :
    endsWait threshold q ↔
      q.err ≠ none ∨
        (q.err = none ∧ 0 < q.total ∧
          registrationReached threshold q.numReg q.total = true) := by
  unfold endsWait
  have hiff : q.total ≠ 0 ↔ 0 < q.total := by omega
  rw [hiff]

/-- C13: over a script of query results whose totals are node counts (not
negative), `waitForRegistration` returns at the first result that carries
an error, returning that error, or has no error, a total greater than zero
and `float32(numReg) >= threshold*float32(total)`, returning nil; the
results after it are not consumed, and before it the call is still polling.
A result with total zero and no error is skipped whatever numReg is, so
(0, 0) is not treated as ready. -/
theorem C13_wait_on_counts (threshold : Float32)
    (pre post : List RegStatus) (p : RegStatus)
    (hcount : ∀ q ∈ pre, 0 ≤ q.total)
    (hpre : ∀ q ∈ pre,
      ¬ (q.err ≠ none ∨
        (q.err = none ∧ 0 < q.total ∧
          registrationReached threshold q.numReg q.total = true)))
    (hp : p.err ≠ none ∨
      (p.err = none ∧ 0 < p.total ∧
        registrationReached threshold p.numReg p.total = true)) :
    waitForRegistration threshold (pre ++ p :: post) = (.returned p.err, post) ∧
    waitForRegistration threshold pre = (.blocked, []) ∧
    (∀ (numReg : Int) (rest : List RegStatus),
      waitForRegistration threshold (⟨numReg, 0, none⟩ :: rest)
        = waitForRegistration threshold rest) ∧
    (∀ (numReg : Int), waitForRegistration threshold [⟨numReg, 0, none⟩]
      = (.blocked, [])) := by
  have hpre2 : ∀ q ∈ pre, ¬ endsWait threshold q := by
    intro q hq hend
    exact hpre q hq ((endsWait_iff_of_count threshold q (hcount q hq)).1 hend)
  have hp2 : endsWait threshold p := by
    rcases hp with h | ⟨h1, h2, h3⟩
    · exact Or.inl h
    · exact Or.inr ⟨h1, by omega, h3⟩
  have hzero : ∀ numReg : Int, ¬ endsWait threshold ⟨numReg, 0, none⟩ := by
    intro numReg
    unfold endsWait
    simp
  obtain ⟨h1, h2⟩ := waitForRegistration_first_end threshold pre post p hpre2 hp2
  refine ⟨h1, h2, ?_, ?_⟩
  · intro numReg rest
    exact waitForRegistration_skip threshold _ rest (hzero numReg)
  · intro numReg
    rw [waitForRegistration_skip threshold _ [] (hzero numReg)]
    rfl

/-- Witness of C13: (0, 0), then (16, 20), then (17, 20), then a result that
is not consumed. -/
theorem C13_wait_on_counts_witness :
    waitForRegistration registrationThreshold
        ([⟨0, 0, none⟩, ⟨16, 20, none⟩] ++ ⟨17, 20, none⟩ :: [⟨20, 20, none⟩])
      = (.returned none, [⟨20, 20, none⟩]) :=
  (C13_wait_on_counts registrationThreshold
    [⟨0, 0, none⟩, ⟨16, 20, none⟩] [⟨20, 20, none⟩] ⟨17, 20, none⟩
    (by
      intro q hq
      simp only [List.mem_cons, List.mem_singleton, List.not_mem_nil, or_false] at hq
      rcases hq with rfl | rfl <;> decide)
    (by
      intro q hq
      simp only [List.mem_cons, List.mem_singleton, List.not_mem_nil, or_false] at hq
      rcases hq with rfl | rfl
      · simp
      · have h16 : registrationReached registrationThreshold 16 20 = false := by decide
        simp [h16])
    (Or.inr ⟨rfl, by decide, by decide⟩)).1

/-! ## Theorems: the invoice handler -/

/-- C15: with a payload that decoded, `handleNotifyInvoicePaid` answers 400
without building a message or sending whenever one of XXUserID, StealthID,
InvoiceID, Asset or Amount is empty (the all-empty payload of an empty body
included); it sends exactly when all five are non-empty, and then once, the
text of `buildInvoicePaidMessage`, answering 200 or 502 by the result of the
send. A body that fails to decode is answered 400 without a send too. -/
theorem C15_invoice_validation (sendText : String → Option GoError)
    (payload : invoicePaidNotification) :
    ((payload.XXUserID = "" ∨ payload.StealthID = "" ∨ payload.InvoiceID = "" ∨
        payload.Asset = "" ∨ payload.Amount = "") →
      handleNotifyInvoicePaid sendText false payload
        = { status := 400, built := [], sends := [] }) ∧
    (payload.InvoiceID = "" →
      handleNotifyInvoicePaid sendText false payload
        = { status := 400, built := [], sends := [] }) ∧
    handleNotifyInvoicePaid sendText false ⟨"", "", "", "", "", none, ""⟩
      = { status := 400, built := [], sends := [] } ∧
    ((handleNotifyInvoicePaid sendText false payload).sends ≠ [] ↔
      (payload.XXUserID ≠ "" ∧ payload.StealthID ≠ "" ∧ payload.InvoiceID ≠ "" ∧
        payload.Asset ≠ "" ∧ payload.Amount ≠ "")) ∧
    ((payload.XXUserID ≠ "" ∧ payload.StealthID ≠ "" ∧ payload.InvoiceID ≠ "" ∧
        payload.Asset ≠ "" ∧ payload.Amount ≠ "") →
      (handleNotifyInvoicePaid sendText false payload).sends
        = [buildInvoicePaidMessage payload] ∧
      (handleNotifyInvoicePaid sendText false payload).status
        = (if sendText (buildInvoicePaidMessage payload) = none then 200 else 502)) ∧
    handleNotifyInvoicePaid sendText true payload
      = { status := 400, built := [], sends := [] } := by
  have hbad : (payload.XXUserID = "" ∨ payload.StealthID = "" ∨ payload.InvoiceID = "" ∨
        payload.Asset = "" ∨ payload.Amount = "") →
      handleNotifyInvoicePaid sendText false payload
        = { status := 400, built := [], sends := [] } := by
    intro h
    simp [handleNotifyInvoicePaid, h]
  have hgood : (payload.XXUserID ≠ "" ∧ payload.StealthID ≠ "" ∧ payload.InvoiceID ≠ "" ∧
        payload.Asset ≠ "" ∧ payload.Amount ≠ "") →
      (handleNotifyInvoicePaid sendText false payload).sends
        = [buildInvoicePaidMessage payload] ∧
      (handleNotifyInvoicePaid sendText false payload).status
        = (if sendText (buildInvoicePaidMessage payload) = none then 200 else 502) := by
    rintro ⟨h1, h2, h3, h4, h5⟩
    simp only [handleNotifyInvoicePaid, h1, h2, h3, h4, h5, or_self, if_false,
      Bool.false_eq_true, sendNotificationMessage]
    cases hs : sendText (buildInvoicePaidMessage payload) <;> simp
  refine ⟨hbad, fun h => hbad (Or.inr (Or.inr (Or.inl h))), by simp [handleNotifyInvoicePaid],
    ?_, hgood, by simp [handleNotifyInvoicePaid]⟩
  constructor
  · intro hs
    by_contra hc
    have : payload.XXUserID = "" ∨ payload.StealthID = "" ∨ payload.InvoiceID = "" ∨
        payload.Asset = "" ∨ payload.Amount = "" := by
      by_contra hn
      push_neg at hn
      exact hc hn
    rw [hbad this] at hs
    exact hs rfl
  · intro h
    rw [(hgood h).1]
    simp

/-! ## Theorems: the notification formatter -/

theorem Sprintf_user (x : String) :
    Sprintf "User: %s\n" [.str x] = "User: " ++ x ++ "\n" := by
  apply String.ext
  simp only [String.data_append, List.append_assoc]
  rfl

theorem Sprintf_invoice (x : String) :
    Sprintf "Invoice: %s\n" [.str x] = "Invoice: " ++ x ++ "\n" := by
  apply String.ext
  simp only [String.data_append, List.append_assoc]
  rfl

theorem Sprintf_asset_amount (x y : String) :
    Sprintf "Asset / Amount: %s %s\n" [.str x, .str y]
      = "Asset / Amount: " ++ x ++ " " ++ y ++ "\n" := by
  apply String.ext
  simp only [String.data_append, List.append_assoc]
  rfl

theorem Sprintf_bucket (x : String) :
    Sprintf "Stealth bucket: %s\n" [.str x] = "Stealth bucket: " ++ x ++ "\n" := by
  apply String.ext
  simp only [String.data_append, List.append_assoc]
  rfl

theorem Sprintf_origin (n : Int) :
    Sprintf "Origin chain: %d\n" [.int n] = "Origin chain: " ++ formatInt n ++ "\n" := by
  apply String.ext
  simp only [String.data_append, List.append_assoc]
  rfl

theorem Sprintf_txhash (x : String) :
    Sprintf "Tx hash: %s\n" [.str x] = "Tx hash: " ++ x ++ "\n" := by
  apply String.ext
  simp only [String.data_append, List.append_assoc]
  rfl

/-- The writes of `buildStealthPaymentMessage`, one text per write. -/
theorem stealthPaymentWrites_chunks (p : stealthPaymentNotification) :
    (stealthPaymentWrites p).chunks
      = ["Stealth deposit confirmed\n",
          "User: " ++ p.XXUserID ++ "\n",
          "Asset / Amount: " ++ p.Amount ++ " " ++ p.Asset ++ "\n",
          "Stealth bucket: " ++ p.StealthID ++ "\n"]
        ++ (match p.OriginChain with
            | some n => ["Origin chain: " ++ formatInt n ++ "\n"]
            | none => [])
        ++ (if p.TxHash = "" then [] else ["Tx hash: " ++ p.TxHash ++ "\n"])
        ++ ["\n"] := by
  unfold stealthPaymentWrites
  simp only [Fprintln, Fprintf, Builder.empty, Sprintf_user, Sprintf_asset_amount,
    Sprintf_bucket, Sprintf_origin, Sprintf_txhash]
  cases hoc : p.OriginChain <;> by_cases htx : p.TxHash = "" <;>
    simp [htx, String.intercalate, String.intercalate.go]

/-! ### Decimal numerals -/

theorem digitChar_spec (d : Nat) (h : d < 10) :
    '0' ≤ digitChar d ∧ digitChar d ≤ '9' ∧
    (digitChar d).toNat - 48 = d ∧ (digitChar d = '0' → d = 0) := by
  interval_cases d <;> decide

theorem decimalValue_concat (ds : List Char) (c : Char) :
    decimalValue (ds ++ [c]) = 10 * decimalValue ds + (c.toNat - 48) := by
  simp [decimalValue, List.foldl_append]

theorem natDigitsAux_spec (fuel : Nat) :
    ∀ (n : Nat) (acc : List Char), n < fuel →
      ∃ ds : List Char, natDigitsAux fuel n acc = ds ++ acc ∧ ds ≠ [] ∧
        (∀ c ∈ ds, '0' ≤ c ∧ c ≤ '9') ∧
        (ds.head? = some '0' → ds = ['0']) ∧
        decimalValue ds = n := by
  induction fuel with
  | zero => intro n acc h; omega
  | succ fuel ih =>
    intro n acc h
    by_cases h10 : n < 10
    · obtain ⟨h1, h2, h3, h4⟩ := digitChar_spec n h10
      refine ⟨[digitChar n], by simp [natDigitsAux, h10], by simp, ?_, ?_, ?_⟩
      · intro c hc
        rw [List.mem_singleton] at hc
        subst hc
        exact ⟨h1, h2⟩
      · intro hh
        simp only [List.head?_cons, Option.some.injEq] at hh
        rw [hh]
      · simp [decimalValue, h3]
    · have hlt : n / 10 < fuel := by omega
      obtain ⟨ds, hds, hne, hdig, hhead, hval⟩ :=
        ih (n / 10) (digitChar (n % 10) :: acc) hlt
      obtain ⟨h1, h2, h3, h4⟩ := digitChar_spec (n % 10) (by omega)
      refine ⟨ds ++ [digitChar (n % 10)], ?_, by simp, ?_, ?_, ?_⟩
      · simp [natDigitsAux, h10, hds]
      · intro c hc
        rw [List.mem_append, List.mem_singleton] at hc
        rcases hc with hc | hc
        · exact hdig c hc
        · subst hc
          exact ⟨h1, h2⟩
      · intro hh
        have hh2 : ds.head? = some '0' := by
          cases ds with
          | nil => exact absurd rfl hne
          | cons a t => simpa using hh
        have := hhead hh2
        rw [this] at hval
        simp [decimalValue] at hval
        omega
      · rw [decimalValue_concat, hval, h3]
        omega

/-- What `%d` prints is the decimal numeral of the number. -/
theorem isDecimal_formatInt (n : Int) : IsDecimal n (formatInt n) := by
  obtain ⟨ds, hds, hne, hdig, hhead, hval⟩ :=
    natDigitsAux_spec (n.natAbs + 1) n.natAbs [] (by omega)
  refine ⟨ds, ?_, hne, hdig, hhead, hval⟩
  unfold formatInt formatNat
  by_cases h : n < 0
  · simp [h, hds, String.data_append]
  · simp [h, hds]

theorem formatInt_noLineBreak (n : Int) : noLineBreak (formatInt n) := by
  obtain ⟨ds, hds, -, hdig, -, -⟩ := isDecimal_formatInt n
  unfold noLineBreak
  rw [hds]
  intro hmem
  rw [List.mem_append] at hmem
  rcases hmem with h | h
  · by_cases hn : n < 0
    · simp [hn] at h
    · simp [hn] at h
  · exact absurd (hdig _ h).1 (by decide)

/-! ### Lines of a text -/

theorem splitOnNewline_ne_nil (l : List Char) : splitOnNewline l ≠ [] := by
  cases l with
  | nil => simp [splitOnNewline]
  | cons c cs =>
    unfold splitOnNewline
    by_cases h : c = '\n'
    · simp [h]
    · simp only [h, if_false]
      cases splitOnNewline cs <;> simp

theorem splitOnNewline_line (l rest : List Char) (h : '\n' ∉ l) :
    splitOnNewline (l ++ '\n' :: rest) = l :: splitOnNewline rest := by
  induction l with
  | nil => simp [splitOnNewline]
  | cons c cs ih =>
    have hc : c ≠ '\n' := fun e => h (by simp [e])
    have hcs : '\n' ∉ cs := fun e => h (List.mem_cons_of_mem _ e)
    simp only [List.cons_append, splitOnNewline, hc, if_false, List.append_eq, ih hcs]

theorem data_foldl_append (l : List String) (acc : String) :
    (l.foldl (fun r x => r ++ x) acc).data
      = acc.data ++ (l.foldl (fun r x => r ++ x) "").data := by
  induction l generalizing acc with
  | nil => simp
  | cons c rest ih =>
    simp only [List.foldl_cons]
    rw [ih (acc ++ c), ih ("" ++ c)]
    simp [String.data_append]

theorem data_join_cons (c : String) (rest : List String) :
    (String.join (c :: rest)).data = c.data ++ (String.join rest).data := by
  unfold String.join
  simp only [List.foldl_cons]
  rw [data_foldl_append]
  simp [String.data_append]

/-- Lines without a newline are recovered from their concatenation. -/
theorem outputLines_joinLines (ls : List String) (h : ∀ l ∈ ls, noLineBreak l) :
    outputLines (joinLines ls) = ls := by
  unfold outputLines
  induction ls with
  | nil => rfl
  | cons l ls ih =>
    have hl : '\n' ∉ l.data := h l (List.mem_cons_self _ _)
    have hrest := ih (fun x hx => h x (List.mem_cons_of_mem _ hx))
    have hdata : (joinLines (l :: ls)).data = l.data ++ '\n' :: (joinLines ls).data := by
      unfold joinLines
      rw [List.map_cons, data_join_cons]
      simp [String.data_append]
    rw [hdata, splitOnNewline_line _ _ hl,
      List.dropLast_cons_of_ne_nil (splitOnNewline_ne_nil _), List.map_cons, hrest]

theorem noLineBreak_append (a b : String) (ha : noLineBreak a) (hb : noLineBreak b) :
    noLineBreak (a ++ b) := by
  unfold noLineBreak at *
  rw [String.data_append, List.mem_append]
  exact fun h => h.elim ha hb

/-! ### The stealth payment message -/

theorem stealthPayment_contents (p : stealthPaymentNotification) :
    buildStealthPaymentMessage p
      = "Stealth deposit confirmed\n"
        ++ ("User: " ++ p.XXUserID ++ "\n")
        ++ ("Asset / Amount: " ++ p.Amount ++ " " ++ p.Asset ++ "\n")
        ++ ("Stealth bucket: " ++ p.StealthID ++ "\n")
        ++ (match p.OriginChain with
            | some n => "Origin chain: " ++ formatInt n ++ "\n"
            | none => "")
        ++ (if p.TxHash = "" then "" else "Tx hash: " ++ p.TxHash ++ "\n")
        ++ "\n" := by
  unfold buildStealthPaymentMessage Builder.contents
  rw [stealthPaymentWrites_chunks]
  apply String.ext
  cases hoc : p.OriginChain <;> by_cases htx : p.TxHash = "" <;>
    simp [htx, String.join, String.data_append]

theorem stealthPayment_joinLines (p : stealthPaymentNotification) :
    buildStealthPaymentMessage p
      = joinLines
        (["Stealth deposit confirmed",
            "User: " ++ p.XXUserID,
            "Asset / Amount: " ++ p.Amount ++ " " ++ p.Asset,
            "Stealth bucket: " ++ p.StealthID]
          ++ (match p.OriginChain with
              | some n => ["Origin chain: " ++ formatInt n]
              | none => [])
          ++ (if p.TxHash = "" then [] else ["Tx hash: " ++ p.TxHash])
          ++ [""]) := by
  unfold buildStealthPaymentMessage Builder.contents joinLines
  rw [stealthPaymentWrites_chunks]
  congr 1
  cases hoc : p.OriginChain <;> by_cases htx : p.TxHash = "" <;> simp [htx]

theorem stealthPayment_outputLines (p : stealthPaymentNotification)
    (h1 : noLineBreak p.XXUserID) (h2 : noLineBreak p.StealthID)
    (h3 : noLineBreak p.Asset) (h4 : noLineBreak p.Amount)
    (h5 : noLineBreak p.TxHash) :
    outputLines (buildStealthPaymentMessage p)
      = ["Stealth deposit confirmed",
          "User: " ++ p.XXUserID,
          "Asset / Amount: " ++ p.Amount ++ " " ++ p.Asset,
          "Stealth bucket: " ++ p.StealthID]
        ++ (match p.OriginChain with
            | some n => ["Origin chain: " ++ formatInt n]
            | none => [])
        ++ (if p.TxHash = "" then [] else ["Tx hash: " ++ p.TxHash])
        ++ [""] := by
  rw [stealthPayment_joinLines]
  apply outputLines_joinLines
  have k0 : noLineBreak "Stealth deposit confirmed" := by decide
  have k1 : noLineBreak ("User: " ++ p.XXUserID) :=
    noLineBreak_append _ _ (by decide) h1
  have k2 : noLineBreak ("Asset / Amount: " ++ p.Amount ++ " " ++ p.Asset) :=
    noLineBreak_append _ _
      (noLineBreak_append _ _ (noLineBreak_append _ _ (by decide) h4) (by decide)) h3
  have k3 : noLineBreak ("Stealth bucket: " ++ p.StealthID) :=
    noLineBreak_append _ _ (by decide) h2
  have k4 : ∀ n : Int, noLineBreak ("Origin chain: " ++ formatInt n) :=
    fun n => noLineBreak_append _ _ (by decide) (formatInt_noLineBreak n)
  have k5 : noLineBreak ("Tx hash: " ++ p.TxHash) :=
    noLineBreak_append _ _ (by decide) h5
  have k6 : noLineBreak "" := by decide
  intro l hl
  cases hoc : p.OriginChain with
  | none =>
    by_cases htx : p.TxHash = ""
    · simp only [hoc, htx, if_true, List.append_nil, List.cons_append, List.nil_append,
        List.mem_cons, List.mem_singleton, List.not_mem_nil, or_false] at hl
      rcases hl with rfl | rfl | rfl | rfl | rfl <;> assumption
    · simp only [hoc, htx, if_false, List.append_nil, List.cons_append, List.nil_append,
        List.mem_cons, List.mem_singleton, List.not_mem_nil, or_false] at hl
      rcases hl with rfl | rfl | rfl | rfl | rfl | rfl <;> assumption
  | some n =>
    have k4n := k4 n
    by_cases htx : p.TxHash = ""
    · simp only [hoc, htx, if_true, List.append_nil, List.cons_append, List.nil_append,
        List.mem_cons, List.mem_singleton, List.not_mem_nil, or_false] at hl
      rcases hl with rfl | rfl | rfl | rfl | rfl | rfl <;> assumption
    · simp only [hoc, htx, if_false, List.append_nil, List.cons_append, List.nil_append,
        List.mem_cons, List.mem_singleton, List.not_mem_nil, or_false] at hl
      rcases hl with rfl | rfl | rfl | rfl | rfl | rfl | rfl <;> assumption

theorem stealthPayment_origin_line (p : stealthPaymentNotification)
    (h1 : noLineBreak p.XXUserID) (h2 : noLineBreak p.StealthID)
    (h3 : noLineBreak p.Asset) (h4 : noLineBreak p.Amount)
    (h5 : noLineBreak p.TxHash) :
    (∃ l ∈ outputLines (buildStealthPaymentMessage p), "Origin chain:".data <+: l.data)
      ↔ p.OriginChain ≠ none := by
  rw [stealthPayment_outputLines p h1 h2 h3 h4 h5]
  cases hoc : p.OriginChain with
  | none =>
    by_cases htx : p.TxHash = "" <;>
      simp [htx, String.data_append, List.cons_prefix_cons]
  | some n =>
    simp only [ne_eq, not_false_eq_true, iff_true, reduceCtorEq]
    refine ⟨"Origin chain: " ++ formatInt n, by simp, ?_⟩
    exact ⟨(" " ++ formatInt n).data, by simp [String.data_append]⟩

theorem stealthPayment_txhash_line (p : stealthPaymentNotification)
    (h1 : noLineBreak p.XXUserID) (h2 : noLineBreak p.StealthID)
    (h3 : noLineBreak p.Asset) (h4 : noLineBreak p.Amount)
    (h5 : noLineBreak p.TxHash) :
    (∃ l ∈ outputLines (buildStealthPaymentMessage p), "Tx hash:".data <+: l.data)
      ↔ p.TxHash ≠ "" := by
  rw [stealthPayment_outputLines p h1 h2 h3 h4 h5]
  by_cases htx : p.TxHash = ""
  · cases hoc : p.OriginChain <;>
      simp [htx, String.data_append, List.cons_prefix_cons]
  · simp only [ne_eq, htx, not_false_eq_true, iff_true, if_false]
    refine ⟨"Tx hash: " ++ p.TxHash, by simp, ?_⟩
    exact ⟨(" " ++ p.TxHash).data, by simp [String.data_append]⟩

/-- C14 as amended: `buildStealthPaymentMessage` depends on the payload
fields alone, and for every payload its output is the concatenation, in
order, of "Stealth deposit confirmed", "User: " with XXUserID, "Asset /
Amount: " with Amount and Asset, "Stealth bucket: " with StealthID, then
"Origin chain: " with the decimal numeral of the number exactly when
OriginChain is set, then "Tx hash: " with TxHash exactly when it is not
empty, then the empty text, each followed by a newline. When no string
field contains a newline these are the lines of the output, so a line that
starts with "Origin chain:" occurs exactly when OriginChain is set and a
line that starts with "Tx hash:" exactly when TxHash is not empty; with both
absent the output has neither line. -/
theorem C14_stealth_payment_format (p : stealthPaymentNotification) :
    (∀ q : stealthPaymentNotification,
      q.XXUserID = p.XXUserID → q.StealthID = p.StealthID → q.Asset = p.Asset →
      q.Amount = p.Amount → q.OriginChain = p.OriginChain → q.TxHash = p.TxHash →
      buildStealthPaymentMessage q = buildStealthPaymentMessage p) ∧
    buildStealthPaymentMessage p
      = joinLines
        (["Stealth deposit confirmed",
            "User: " ++ p.XXUserID,
            "Asset / Amount: " ++ p.Amount ++ " " ++ p.Asset,
            "Stealth bucket: " ++ p.StealthID]
          ++ (match p.OriginChain with
              | some n => ["Origin chain: " ++ formatInt n]
              | none => [])
          ++ (if p.TxHash = "" then [] else ["Tx hash: " ++ p.TxHash])
          ++ [""]) ∧
    buildStealthPaymentMessage p
      = "Stealth deposit confirmed\n"
        ++ ("User: " ++ p.XXUserID ++ "\n")
        ++ ("Asset / Amount: " ++ p.Amount ++ " " ++ p.Asset ++ "\n")
        ++ ("Stealth bucket: " ++ p.StealthID ++ "\n")
        ++ (match p.OriginChain with
            | some n => "Origin chain: " ++ formatInt n ++ "\n"
            | none => "")
        ++ (if p.TxHash = "" then "" else "Tx hash: " ++ p.TxHash ++ "\n")
        ++ "\n" ∧
    (∀ n : Int, IsDecimal n (formatInt n)) ∧
    formatInt 137 = "137" ∧ formatInt 0 = "0" ∧ formatInt (-42) = "-42" ∧
    buildStealthPaymentMessage ⟨"u1", "b7", "DOT", "12.5", some 1284, "0xab"⟩
      = "Stealth deposit confirmed\nUser: u1\nAsset / Amount: 12.5 DOT\nStealth bucket: b7\nOrigin chain: 1284\nTx hash: 0xab\n\n" ∧
    (noLineBreak p.XXUserID → noLineBreak p.StealthID → noLineBreak p.Asset →
      noLineBreak p.Amount → noLineBreak p.TxHash →
      outputLines (buildStealthPaymentMessage p)
        = ["Stealth deposit confirmed",
            "User: " ++ p.XXUserID,
            "Asset / Amount: " ++ p.Amount ++ " " ++ p.Asset,
            "Stealth bucket: " ++ p.StealthID]
          ++ (match p.OriginChain with
              | some n => ["Origin chain: " ++ formatInt n]
              | none => [])
          ++ (if p.TxHash = "" then [] else ["Tx hash: " ++ p.TxHash])
          ++ [""] ∧
      ((∃ l ∈ outputLines (buildStealthPaymentMessage p),
          "Origin chain:".data <+: l.data) ↔ p.OriginChain ≠ none) ∧
      ((∃ l ∈ outputLines (buildStealthPaymentMessage p),
          "Tx hash:".data <+: l.data) ↔ p.TxHash ≠ "") ∧
      (p.OriginChain = none → p.TxHash = "" →
        outputLines (buildStealthPaymentMessage p)
          = ["Stealth deposit confirmed",
              "User: " ++ p.XXUserID,
              "Asset / Amount: " ++ p.Amount ++ " " ++ p.Asset,
              "Stealth bucket: " ++ p.StealthID,
              ""] ∧
        (¬ ∃ l ∈ outputLines (buildStealthPaymentMessage p),
          "Origin chain:".data <+: l.data) ∧
        (¬ ∃ l ∈ outputLines (buildStealthPaymentMessage p),
          "Tx hash:".data <+: l.data))) := by
  refine ⟨?_, stealthPayment_joinLines p, stealthPayment_contents p, isDecimal_formatInt,
    by decide, by decide, by decide, by decide, ?_⟩
  · intro q h1 h2 h3 h4 h5 h6
    have : q = p := by
      cases q
      cases p
      simp only at h1 h2 h3 h4 h5 h6
      simp [h1, h2, h3, h4, h5, h6]
    rw [this]
  · intro h1 h2 h3 h4 h5
    refine ⟨stealthPayment_outputLines p h1 h2 h3 h4 h5,
      stealthPayment_origin_line p h1 h2 h3 h4 h5,
      stealthPayment_txhash_line p h1 h2 h3 h4 h5, ?_⟩
    intro hoc htx
    refine ⟨?_, ?_, ?_⟩
    · rw [stealthPayment_outputLines p h1 h2 h3 h4 h5, hoc, htx]
      simp
    · rw [stealthPayment_origin_line p h1 h2 h3 h4 h5]
      simp [hoc]
    · rw [stealthPayment_txhash_line p h1 h2 h3 h4 h5]
      simp [htx]

/-- Witness of C14 as amended: a payload without newlines, chain 137 and
no transaction hash. -/
theorem C14_stealth_payment_format_witness :
    outputLines (buildStealthPaymentMessage ⟨"u1", "b7", "DOT", "12.5", some 137, ""⟩)
      = ["Stealth deposit confirmed", "User: u1", "Asset / Amount: 12.5 DOT",
          "Stealth bucket: b7", "Origin chain: 137", ""] :=
  ((C14_stealth_payment_format ⟨"u1", "b7", "DOT", "12.5", some 137, ""⟩).2.2.2.2.2.2.2.2
    (by decide) (by decide) (by decide) (by decide) (by decide)).1.trans (by decide)

/-- C14 as stated fails: with both optional fields absent and a StealthID
that contains a newline, the output has the line "Origin chain: 5"; it is
the very output of the payload whose OriginChain is 5. -/
theorem C14_line_break_in_field :
    (⟨"u", "s\nOrigin chain: 5", "A", "1", none, ""⟩ :
      stealthPaymentNotification).OriginChain = none ∧
    (⟨"u", "s\nOrigin chain: 5", "A", "1", none, ""⟩ :
      stealthPaymentNotification).TxHash = "" ∧
    "Origin chain: 5"
      ∈ outputLines (buildStealthPaymentMessage ⟨"u", "s\nOrigin chain: 5", "A", "1", none, ""⟩) ∧
    buildStealthPaymentMessage ⟨"u", "s\nOrigin chain: 5", "A", "1", none, ""⟩
      = buildStealthPaymentMessage ⟨"u", "s", "A", "1", some 5, ""⟩ := by
  refine ⟨rfl, rfl, by decide, by decide⟩

/-! ### The invoice message -/

set_option maxRecDepth 100000

/-- The writes of `buildInvoicePaidMessage`, one text per write. -/
theorem invoicePaidWrites_chunks (p : invoicePaidNotification) :
    (invoicePaidWrites p).chunks
      = [invoiceHeadline ++ "\n",
          "User: " ++ p.XXUserID ++ "\n",
          "Invoice: " ++ p.InvoiceID ++ "\n",
          "Stealth bucket: " ++ p.StealthID ++ "\n",
          "Asset / Amount: " ++ p.Amount ++ " " ++ p.Asset ++ "\n"]
        ++ (match p.OriginChain with
            | some n => ["Origin chain: " ++ formatInt n ++ "\n"]
            | none => [])
        ++ (if p.TxHash = "" then [] else ["Tx hash: " ++ p.TxHash ++ "\n"])
        ++ ["\n"]
        ++ invoiceClosing := by
  unfold invoicePaidWrites invoiceHeadline invoiceClosing
  simp only [Fprintln, Fprintf, Builder.empty, Sprintf_user, Sprintf_asset_amount,
    Sprintf_bucket, Sprintf_origin, Sprintf_txhash, Sprintf_invoice]
  cases hoc : p.OriginChain <;> by_cases htx : p.TxHash = "" <;>
    simp [htx, String.intercalate, String.intercalate.go]

theorem invoicePaid_joinLines (p : invoicePaidNotification) :
    buildInvoicePaidMessage p
      = joinLines
        ([invoiceHeadline,
            "User: " ++ p.XXUserID,
            "Invoice: " ++ p.InvoiceID,
            "Stealth bucket: " ++ p.StealthID,
            "Asset / Amount: " ++ p.Amount ++ " " ++ p.Asset]
          ++ (match p.OriginChain with
              | some n => ["Origin chain: " ++ formatInt n]
              | none => [])
          ++ (if p.TxHash = "" then [] else ["Tx hash: " ++ p.TxHash])
          ++ [""]
          ++ invoiceClosingLines) := by
  unfold buildInvoicePaidMessage Builder.contents joinLines
  rw [invoicePaidWrites_chunks]
  have hclosing : invoiceClosing = invoiceClosingLines.map (fun l => l ++ "\n") := by
    decide
  rw [hclosing]
  congr 1
  cases hoc : p.OriginChain <;> by_cases htx : p.TxHash = "" <;> simp [htx]

theorem invoicePaid_head (p : invoicePaidNotification) :
    (buildInvoicePaidMessage p).data.head? = some (Char.ofNat 0xF0) := by
  unfold buildInvoicePaidMessage Builder.contents
  rw [invoicePaidWrites_chunks]
  simp only [List.cons_append, data_join_cons, String.data_append]
  have h : invoiceHeadline.data
      = Char.ofNat 0xF0 :: ("Ÿ›ï¸ Invoice settled from stealth balance").data := by
    decide
  rw [h]
  rfl

theorem stealthPayment_head (q : stealthPaymentNotification) :
    (buildStealthPaymentMessage q).data.head? = some 'S' := by
  rw [stealthPayment_contents]
  simp [String.data_append]

theorem invoicePaid_outputLines (p : invoicePaidNotification)
    (h1 : noLineBreak p.XXUserID) (h2 : noLineBreak p.StealthID)
    (h3 : noLineBreak p.InvoiceID) (h4 : noLineBreak p.Asset)
    (h5 : noLineBreak p.Amount) (h6 : noLineBreak p.TxHash) :
    outputLines (buildInvoicePaidMessage p)
      = [invoiceHeadline,
          "User: " ++ p.XXUserID,
          "Invoice: " ++ p.InvoiceID,
          "Stealth bucket: " ++ p.StealthID,
          "Asset / Amount: " ++ p.Amount ++ " " ++ p.Asset]
        ++ (match p.OriginChain with
            | some n => ["Origin chain: " ++ formatInt n]
            | none => [])
        ++ (if p.TxHash = "" then [] else ["Tx hash: " ++ p.TxHash])
        ++ [""]
        ++ invoiceClosingLines := by
  rw [invoicePaid_joinLines]
  apply outputLines_joinLines
  have k0 : noLineBreak invoiceHeadline := by decide
  have k1 : noLineBreak ("User: " ++ p.XXUserID) :=
    noLineBreak_append _ _ (by decide) h1
  have k2 : noLineBreak ("Invoice: " ++ p.InvoiceID) :=
    noLineBreak_append _ _ (by decide) h3
  have k3 : noLineBreak ("Stealth bucket: " ++ p.StealthID) :=
    noLineBreak_append _ _ (by decide) h2
  have k4 : noLineBreak ("Asset / Amount: " ++ p.Amount ++ " " ++ p.Asset) :=
    noLineBreak_append _ _
      (noLineBreak_append _ _ (noLineBreak_append _ _ (by decide) h5) (by decide)) h4
  have k5 : ∀ n : Int, noLineBreak ("Origin chain: " ++ formatInt n) :=
    fun n => noLineBreak_append _ _ (by decide) (formatInt_noLineBreak n)
  have k6 : noLineBreak ("Tx hash: " ++ p.TxHash) :=
    noLineBreak_append _ _ (by decide) h6
  have k7 : noLineBreak "" := by decide
  have k8 : ∀ l ∈ invoiceClosingLines, noLineBreak l := by decide
  intro l hl
  rw [List.mem_append] at hl
  rcases hl with hl | hl
  swap
  · exact k8 l hl
  cases hoc : p.OriginChain with
  | none =>
    by_cases htx : p.TxHash = ""
    · simp only [hoc, htx, if_true, List.append_nil, List.cons_append, List.nil_append,
        List.mem_cons, List.mem_singleton, List.not_mem_nil, or_false] at hl
      rcases hl with rfl | rfl | rfl | rfl | rfl | rfl <;> assumption
    · simp only [hoc, htx, if_false, List.append_nil, List.cons_append, List.nil_append,
        List.mem_cons, List.mem_singleton, List.not_mem_nil, or_false] at hl
      rcases hl with rfl | rfl | rfl | rfl | rfl | rfl | rfl <;> assumption
  | some n =>
    have k5n := k5 n
    by_cases htx : p.TxHash = ""
    · simp only [hoc, htx, if_true, List.append_nil, List.cons_append, List.nil_append,
        List.mem_cons, List.mem_singleton, List.not_mem_nil, or_false] at hl
      rcases hl with rfl | rfl | rfl | rfl | rfl | rfl | rfl <;> assumption
    · simp only [hoc, htx, if_false, List.append_nil, List.cons_append, List.nil_append,
        List.mem_cons, List.mem_singleton, List.not_mem_nil, or_false] at hl
      rcases hl with rfl | rfl | rfl | rfl | rfl | rfl | rfl | rfl <;> assumption

theorem invoiceClosingLines_no_marker :
    ∀ l ∈ invoiceClosingLines,
      ¬ ("Origin chain:".data <+: l.data) ∧ ¬ ("Tx hash:".data <+: l.data) := by
  decide

theorem invoicePaid_origin_line (p : invoicePaidNotification)
    (h1 : noLineBreak p.XXUserID) (h2 : noLineBreak p.StealthID)
    (h3 : noLineBreak p.InvoiceID) (h4 : noLineBreak p.Asset)
    (h5 : noLineBreak p.Amount) (h6 : noLineBreak p.TxHash) :
    (∃ l ∈ outputLines (buildInvoicePaidMessage p), "Origin chain:".data <+: l.data)
      ↔ p.OriginChain ≠ none := by
  rw [invoicePaid_outputLines p h1 h2 h3 h4 h5 h6]
  have hhead : ¬ ("Origin chain:".data <+: invoiceHeadline.data) := by decide
  constructor
  · rintro ⟨l, hl, hpre⟩
    rw [List.mem_append] at hl
    rcases hl with hl | hl
    swap
    · exact absurd hpre (invoiceClosingLines_no_marker l hl).1
    intro hoc
    by_cases htx : p.TxHash = ""
    · simp only [hoc, htx, if_true, List.append_nil, List.cons_append, List.nil_append,
        List.mem_cons, List.mem_singleton, List.not_mem_nil, or_false] at hl
      rcases hl with rfl | rfl | rfl | rfl | rfl | rfl
      · exact hhead hpre
      all_goals simp [String.data_append, List.cons_prefix_cons] at hpre
    · simp only [hoc, htx, if_false, List.append_nil, List.cons_append, List.nil_append,
        List.mem_cons, List.mem_singleton, List.not_mem_nil, or_false] at hl
      rcases hl with rfl | rfl | rfl | rfl | rfl | rfl | rfl
      · exact hhead hpre
      all_goals simp [String.data_append, List.cons_prefix_cons] at hpre
  · intro hoc
    cases hn : p.OriginChain with
    | none => exact absurd hn hoc
    | some n =>
      refine ⟨"Origin chain: " ++ formatInt n, by simp, ?_⟩
      exact ⟨(" " ++ formatInt n).data, by simp [String.data_append]⟩

theorem invoicePaid_txhash_line (p : invoicePaidNotification)
    (h1 : noLineBreak p.XXUserID) (h2 : noLineBreak p.StealthID)
    (h3 : noLineBreak p.InvoiceID) (h4 : noLineBreak p.Asset)
    (h5 : noLineBreak p.Amount) (h6 : noLineBreak p.TxHash) :
    (∃ l ∈ outputLines (buildInvoicePaidMessage p), "Tx hash:".data <+: l.data)
      ↔ p.TxHash ≠ "" := by
  rw [invoicePaid_outputLines p h1 h2 h3 h4 h5 h6]
  have hhead : ¬ ("Tx hash:".data <+: invoiceHeadline.data) := by decide
  constructor
  · rintro ⟨l, hl, hpre⟩
    rw [List.mem_append] at hl
    rcases hl with hl | hl
    swap
    · exact absurd hpre (invoiceClosingLines_no_marker l hl).2
    intro htx
    cases hoc : p.OriginChain with
    | none =>
      simp only [hoc, htx, if_true, List.append_nil, List.cons_append, List.nil_append,
        List.mem_cons, List.mem_singleton, List.not_mem_nil, or_false] at hl
      rcases hl with rfl | rfl | rfl | rfl | rfl | rfl
      · exact hhead hpre
      all_goals simp [String.data_append, List.cons_prefix_cons] at hpre
    | some n =>
      simp only [hoc, htx, if_true, List.append_nil, List.cons_append, List.nil_append,
        List.mem_cons, List.mem_singleton, List.not_mem_nil, or_false] at hl
      rcases hl with rfl | rfl | rfl | rfl | rfl | rfl | rfl
      · exact hhead hpre
      all_goals simp [String.data_append, List.cons_prefix_cons] at hpre
  · intro htx
    refine ⟨"Tx hash: " ++ p.TxHash, by simp [htx], ?_⟩
    exact ⟨(" " ++ p.TxHash).data, by simp [String.data_append]⟩

/-- C18 as amended: for every payload the output of `buildInvoicePaidMessage`
is the concatenation, in order, of the invoice headline, "User: " with
XXUserID, "Invoice: " with InvoiceID, "Stealth bucket: " with StealthID,
"Asset / Amount: " with Amount and Asset, then "Origin chain: " with the
decimal numeral of the number exactly when OriginChain is set, then "Tx
hash: " with TxHash exactly when it is not empty, then the empty text, then
the two closing texts, which are the same for every payload, each followed
by a newline. The headline is not the StealthPayment headline and no
InvoicePaid output equals a StealthPayment output. When no string field
contains a newline these are the lines of the output, so a line that starts
with "Origin chain:" occurs exactly when OriginChain is set and a line that
starts with "Tx hash:" exactly when TxHash is not empty. -/
theorem C18_invoice_paid_format (p : invoicePaidNotification) :
    buildInvoicePaidMessage p
      = joinLines
        ([invoiceHeadline,
            "User: " ++ p.XXUserID,
            "Invoice: " ++ p.InvoiceID,
            "Stealth bucket: " ++ p.StealthID,
            "Asset / Amount: " ++ p.Amount ++ " " ++ p.Asset]
          ++ (match p.OriginChain with
              | some n => ["Origin chain: " ++ formatInt n]
              | none => [])
          ++ (if p.TxHash = "" then [] else ["Tx hash: " ++ p.TxHash])
          ++ [""]
          ++ invoiceClosingLines) ∧
    (∀ n : Int, IsDecimal n (formatInt n)) ∧
    formatInt 137 = "137" ∧ formatInt 0 = "0" ∧ formatInt (-42) = "-42" ∧
    buildInvoicePaidMessage ⟨"u1", "b7", "inv9", "DOT", "12.5", some 1284, "0xab"⟩
      = invoiceHeadline
        ++ "\nUser: u1\nInvoice: inv9\nStealth bucket: b7\nAsset / Amount: 12.5 DOT\nOrigin chain: 1284\nTx hash: 0xab\n\n"
        ++ String.join invoiceClosing ∧
    invoiceHeadline ≠ "Stealth deposit confirmed" ∧
    (∀ q : stealthPaymentNotification,
      buildInvoicePaidMessage p ≠ buildStealthPaymentMessage q) ∧
    (noLineBreak p.XXUserID → noLineBreak p.StealthID → noLineBreak p.InvoiceID →
      noLineBreak p.Asset → noLineBreak p.Amount → noLineBreak p.TxHash →
      outputLines (buildInvoicePaidMessage p)
        = [invoiceHeadline,
            "User: " ++ p.XXUserID,
            "Invoice: " ++ p.InvoiceID,
            "Stealth bucket: " ++ p.StealthID,
            "Asset / Amount: " ++ p.Amount ++ " " ++ p.Asset]
          ++ (match p.OriginChain with
              | some n => ["Origin chain: " ++ formatInt n]
              | none => [])
          ++ (if p.TxHash = "" then [] else ["Tx hash: " ++ p.TxHash])
          ++ [""]
          ++ invoiceClosingLines ∧
      ((∃ l ∈ outputLines (buildInvoicePaidMessage p),
          "Origin chain:".data <+: l.data) ↔ p.OriginChain ≠ none) ∧
      ((∃ l ∈ outputLines (buildInvoicePaidMessage p),
          "Tx hash:".data <+: l.data) ↔ p.TxHash ≠ "")) := by
  refine ⟨invoicePaid_joinLines p, isDecimal_formatInt, by decide, by decide, by decide,
    by decide, by decide, ?_, ?_⟩
  · intro q h
    have h1 := invoicePaid_head p
    rw [h, stealthPayment_head q] at h1
    exact absurd h1 (by decide)
  · intro h1 h2 h3 h4 h5 h6
    exact ⟨invoicePaid_outputLines p h1 h2 h3 h4 h5 h6,
      invoicePaid_origin_line p h1 h2 h3 h4 h5 h6,
      invoicePaid_txhash_line p h1 h2 h3 h4 h5 h6⟩

/-- Witness of C18 as amended: a payload without newlines, chain 137 and no
transaction hash. -/
theorem C18_invoice_paid_format_witness :
    outputLines (buildInvoicePaidMessage ⟨"u1", "b7", "inv9", "DOT", "12.5", some 137, ""⟩)
      = [invoiceHeadline, "User: u1", "Invoice: inv9", "Stealth bucket: b7",
          "Asset / Amount: 12.5 DOT", "Origin chain: 137", ""] ++ invoiceClosingLines :=
  ((C18_invoice_paid_format
      ⟨"u1", "b7", "inv9", "DOT", "12.5", some 137, ""⟩).2.2.2.2.2.2.2.2
    (by decide) (by decide) (by decide) (by decide) (by decide) (by decide)).1.trans
    (by decide)

/-- C18 as stated fails: with OriginChain absent and an Asset that contains
a newline, the output has the line "Origin chain: 5"; it is the very output
of the payload whose OriginChain is 5. -/
theorem C18_line_break_in_field :
    (⟨"u", "s", "i", "A\nOrigin chain: 5", "1", none, ""⟩ :
      invoicePaidNotification).OriginChain = none ∧
    "Origin chain: 5"
      ∈ outputLines
        (buildInvoicePaidMessage ⟨"u", "s", "i", "A\nOrigin chain: 5", "1", none, ""⟩) ∧
    buildInvoicePaidMessage ⟨"u", "s", "i", "A\nOrigin chain: 5", "1", none, ""⟩
      = buildInvoicePaidMessage ⟨"u", "s", "i", "A", "1", some 5, ""⟩ := by
  refine ⟨rfl, by decide, by decide⟩

/-! ## Theorems: interleavings of bridge calls -/

section Interleavings

variable {ID Round : Type} [DecidableEq ID]

theorem runCalls_append (lib : Lib ID) (r : receiver ID Round)
    (cs ds : List (Call ID Round)) :
    receiver.runCalls lib r (cs ++ ds)
      = receiver.runCalls lib (receiver.runCalls lib r cs) ds := by
  induction cs generalizing r with
  | nil => rfl
  | cons c cs ih => simp [receiver.runCalls, ih]

omit [DecidableEq ID] in
theorem recvIDs_append (cs ds : List (Call ID Round)) :
    recvIDs (cs ++ ds) = recvIDs cs ++ recvIDs ds := by
  induction cs with
  | nil => rfl
  | cons c cs ih =>
    cases c with
    | recv e => simp [recvIDs, ih]
    | updateSent u m ts rd st => simp [recvIDs, ih]

theorem mapModify_of_absent {V : Type} (l : List (ID × V)) (m : ID) (f : V → V)
    (h : mapGet l m = none) : mapModify l m f = l := by
  induction l with
  | nil => rfl
  | cons q rest ih =>
    obtain ⟨k1, v1⟩ := q
    by_cases hk : k1 = m
    · simp [mapGet, hk] at h
    · simp only [mapGet, hk, if_false] at h
      simp only [mapModify, hk, if_false]
      rw [ih h]

theorem UpdateSentStatus_frame (r : receiver ID Round) (uuid : Nat) (m : ID)
    (ts : Time) (rd : Round) (st : Nat) :
    (r.UpdateSentStatus uuid m ts rd st).msgData
        = mapModify r.msgData m (fun x => { x with status := st }) ∧
    (r.UpdateSentStatus uuid m ts rd st).uuid = r.uuid ∧
    (r.UpdateSentStatus uuid m ts rd st).store = r.store := by
  cases h : mapGet r.msgData m with
  | none =>
    rw [UpdateSentStatus_absent r uuid m ts rd st h]
    exact ⟨(mapModify_of_absent _ _ _ h).symm, rfl, rfl⟩
  | some msg =>
    rw [UpdateSentStatus_present r uuid m ts rd st msg h]
    exact ⟨rfl, rfl, rfl⟩

theorem keys_apply (lib : Lib ID) (r : receiver ID Round) (c : Call ID Round) :
    (r.apply lib c).msgData.map Prod.fst
      = observe (r.msgData.map Prod.fst) (recvIDs [c]) := by
  cases c with
  | recv e => exact keys_step lib r e
  | updateSent u m ts rd st =>
    simp only [receiver.apply, recvIDs, observe]
    rw [(UpdateSentStatus_frame r u m ts rd st).1]
    exact keys_mapModify _ _ _

theorem keys_runCalls (lib : Lib ID) (cs : List (Call ID Round))
    (r : receiver ID Round) :
    (receiver.runCalls lib r cs).msgData.map Prod.fst
      = observe (r.msgData.map Prod.fst) (recvIDs cs) := by
  induction cs generalizing r with
  | nil => rfl
  | cons c cs ih =>
    simp only [receiver.runCalls]
    rw [ih, keys_apply]
    have : recvIDs (c :: cs) = recvIDs [c] ++ recvIDs cs := by
      rw [← recvIDs_append]
      rfl
    rw [this, observe_append]

theorem storeIDs_apply (lib : Lib ID) (r : receiver ID Round) (c : Call ID Round)
    (h : List.Sublist (r.store.messages.map InboxMessage.ID)
      ((r.msgData.map Prod.fst).map lib.render)) :
    List.Sublist ((r.apply lib c).store.messages.map InboxMessage.ID)
      (((r.apply lib c).msgData.map Prod.fst).map lib.render) := by
  cases c with
  | updateSent u m ts rd st =>
    simp only [receiver.apply]
    obtain ⟨hm, -, hs⟩ := UpdateSentStatus_frame r u m ts rd st
    rw [hm, hs, keys_mapModify]
    exact h
  | recv e =>
    simp only [receiver.apply]
    cases hg : mapGet r.msgData e.messageID with
    | some msg =>
      rw [step_present lib r e msg hg]
      show List.Sublist (r.store.messages.map InboxMessage.ID)
        (((mapModify r.msgData e.messageID _).map Prod.fst).map lib.render)
      rw [keys_mapModify]
      exact h
    | none =>
      obtain ⟨-, -, hstore, record, -, hmap⟩ := step_absent lib r e hg
      rw [hstore, hmap, mapSet_of_absent _ _ _ hg]
      simp only [List.map_append, List.map_cons, List.map_nil]
      cases hs : r.store.suppresses (e.inboxMessage lib) with
      | true =>
        rw [Add_of_suppresses _ _ hs]
        exact h.trans (List.sublist_append_left _ _)
      | false =>
        rw [Add_of_not_suppresses _ _ hs]
        unfold lastN
        rw [List.map_drop]
        refine (List.drop_sublist _ _).trans ?_
        simp only [List.map_append, List.map_cons, List.map_nil]
        exact List.Sublist.append h (List.Sublist.refl _)

theorem storeIDs_runCalls (lib : Lib ID) (cs : List (Call ID Round))
    (r : receiver ID Round)
    (h : List.Sublist (r.store.messages.map InboxMessage.ID)
      ((r.msgData.map Prod.fst).map lib.render)) :
    List.Sublist ((receiver.runCalls lib r cs).store.messages.map InboxMessage.ID)
      (((receiver.runCalls lib r cs).msgData.map Prod.fst).map lib.render) := by
  induction cs generalizing r with
  | nil => exact h
  | cons c cs ih => exact ih _ (storeIDs_apply lib r c h)

theorem nodup_storeIDs (lib : Lib ID) (hinj : Function.Injective lib.render)
    (cs : List (Call ID Round)) :
    ((receiver.runCalls lib (newReceiver newInboxStore : receiver ID Round)
      cs).store.messages.map InboxMessage.ID).Nodup := by
  have hsub := storeIDs_runCalls lib cs (newReceiver newInboxStore : receiver ID Round)
    (by simp [newReceiver, newInboxStore])
  refine List.Nodup.sublist hsub (List.Nodup.map hinj ?_)
  rw [keys_runCalls]
  exact nodup_observe _ _ (by simp [newReceiver])

/-- C17: with an injective rendering of identities, after every finite
interleaving of receive events and `UpdateSentStatus` calls on a fresh
receiver over an empty store, and so after every initial part of it, no two
messages of the store have the same ID. This covers an identity whose
message was evicted and that is observed again: its record is still in the
map, so the event is a repeat and adds nothing. -/
theorem C17_store_ids_unique (lib : Lib ID) (hinj : Function.Injective lib.render)
    (calls : List (Call ID Round)) :
    ((receiver.runCalls lib (newReceiver newInboxStore : receiver ID Round)
      calls).store.messages.map InboxMessage.ID).Nodup ∧
    (∀ n : Nat,
      ((receiver.runCalls lib (newReceiver newInboxStore : receiver ID Round)
        (calls.take n)).store.messages.map InboxMessage.ID).Nodup) ∧
    (∀ (e : RecvEvent ID Round),
      e.messageID ∈ recvIDs calls →
      (receiver.runCalls lib (newReceiver newInboxStore : receiver ID Round)
        (calls ++ [Call.recv e])).store
        = (receiver.runCalls lib (newReceiver newInboxStore : receiver ID Round)
          calls).store) := by
  refine ⟨nodup_storeIDs lib hinj calls, fun n => nodup_storeIDs lib hinj _, ?_⟩
  intro e he
  rw [runCalls_append]
  simp only [receiver.runCalls, receiver.apply]
  have hk := keys_runCalls lib calls (newReceiver newInboxStore : receiver ID Round)
  cases hg : mapGet (receiver.runCalls lib (newReceiver newInboxStore : receiver ID Round)
      calls).msgData e.messageID with
  | none =>
    rw [mapGet_eq_none_iff, hk, mem_observe] at hg
    exact absurd (Or.inr he) hg
  | some msg =>
    rw [step_present lib _ e msg hg]

/-- Witness of C17: two identities, a status update and a repeat. -/
theorem C17_store_ids_unique_witness :
    ((receiver.runCalls demoLib (newReceiver newInboxStore : receiver String Unit)
      [Call.recv (RecvEvent.ReceiveText "a" "n" "x" [] [7] 0 0 ⟨0⟩ () 0),
        Call.recv (RecvEvent.ReceiveText "b" "n" "y" [] [7] 0 0 ⟨0⟩ () 0),
        Call.updateSent 0 "a" ⟨1⟩ () 2,
        Call.recv (RecvEvent.ReceiveText "a" "n" "x" [] [7] 0 0 ⟨0⟩ () 3)]
      ).store.messages.map InboxMessage.ID).Nodup :=
  (C17_store_ids_unique demoLib (fun _ _ h => h)
    [Call.recv (RecvEvent.ReceiveText "a" "n" "x" [] [7] 0 0 ⟨0⟩ () 0),
      Call.recv (RecvEvent.ReceiveText "b" "n" "y" [] [7] 0 0 ⟨0⟩ () 0),
      Call.updateSent 0 "a" ⟨1⟩ () 2,
      Call.recv (RecvEvent.ReceiveText "a" "n" "x" [] [7] 0 0 ⟨0⟩ () 3)]).1

/-! ### Counter and records -/

theorem map_uuid_mapModify (l : List (ID × msgInfo ID Round)) (m : ID) (st : Nat) :
    (mapModify l m (fun x => { x with status := st })).map (fun q => q.2.uuid)
      = l.map (fun q => q.2.uuid) := by
  induction l with
  | nil => rfl
  | cons q rest ih =>
    obtain ⟨k1, v1⟩ := q
    by_cases hk : k1 = m
    · simp [mapModify, hk]
    · simp [mapModify, hk, ih]

theorem length_mapModify (l : List (ID × msgInfo ID Round)) (m : ID)
    (f : msgInfo ID Round → msgInfo ID Round) :
    (mapModify l m f).length = l.length := by
  have := congrArg List.length (keys_mapModify l m f)
  simpa using this

/-- One call keeps the counter equal to the number of records and the
numbers of the records equal to 1, 2, ..., as long as the counter does not
reach `2^64`. -/
theorem counted_apply (lib : Lib ID) (r : receiver ID Round) (c : Call ID Round)
    (hu : r.uuid = r.msgData.length)
    (hn : r.msgData.map (fun q => q.2.uuid) = List.range' 1 r.msgData.length)
    (hlt : ((r.apply lib c).msgData.map Prod.fst).length < 2 ^ 64) :
    (r.apply lib c).uuid = (r.apply lib c).msgData.length ∧
    (r.apply lib c).msgData.map (fun q => q.2.uuid)
      = List.range' 1 (r.apply lib c).msgData.length := by
  cases c with
  | updateSent u m ts rd st =>
    simp only [receiver.apply]
    obtain ⟨hm, hu2, -⟩ := UpdateSentStatus_frame r u m ts rd st
    rw [hm, hu2, map_uuid_mapModify, length_mapModify]
    exact ⟨hu, hn⟩
  | recv e =>
    simp only [receiver.apply] at hlt ⊢
    cases hg : mapGet r.msgData e.messageID with
    | some msg =>
      rw [step_present lib r e msg hg]
      show r.uuid = (mapModify r.msgData e.messageID _).length ∧
        (mapModify r.msgData e.messageID _).map (fun q => q.2.uuid)
          = List.range' 1 (mapModify r.msgData e.messageID _).length
      rw [map_uuid_mapModify, length_mapModify]
      exact ⟨hu, hn⟩
    | none =>
      obtain ⟨-, hu2, -, record, hru, hmap⟩ := step_absent lib r e hg
      rw [hmap, mapSet_of_absent _ _ _ hg] at hlt ⊢
      simp only [List.map_append, List.length_append, List.length_map, List.map_cons,
        List.map_nil, List.length_singleton] at hlt ⊢
      have hmod : (r.uuid + 1) % 2 ^ 64 = r.msgData.length + 1 := by
        rw [hu]
        exact Nat.mod_eq_of_lt hlt
      refine ⟨by rw [hu2, hmod], ?_⟩
      rw [hn, hru, hmod, List.range'_1_concat]
      simp [Nat.add_comm]

theorem counted_runCalls (lib : Lib ID) (cs : List (Call ID Round))
    (r : receiver ID Round)
    (hu : r.uuid = r.msgData.length)
    (hn : r.msgData.map (fun q => q.2.uuid) = List.range' 1 r.msgData.length)
    (hlt : (observe (r.msgData.map Prod.fst) (recvIDs cs)).length < 2 ^ 64) :
    (receiver.runCalls lib r cs).uuid = (receiver.runCalls lib r cs).msgData.length ∧
    (receiver.runCalls lib r cs).msgData.map (fun q => q.2.uuid)
      = List.range' 1 (receiver.runCalls lib r cs).msgData.length := by
  induction cs generalizing r with
  | nil => exact ⟨hu, hn⟩
  | cons c cs ih =>
    simp only [receiver.runCalls]
    have hsplit : recvIDs (c :: cs) = recvIDs [c] ++ recvIDs cs := by
      rw [← recvIDs_append]
      rfl
    rw [hsplit, observe_append, ← keys_apply lib r c] at hlt
    have hlen := length_le_observe (recvIDs cs) ((r.apply lib c).msgData.map Prod.fst)
    obtain ⟨h1, h2⟩ := counted_apply lib r c hu hn (by omega)
    exact ih _ h1 h2 hlt

theorem record_kept_apply (lib : Lib ID) (r : receiver ID Round) (c : Call ID Round)
    (k : ID) (record : msgInfo ID Round) (h : mapGet r.msgData k = some record) :
    ∃ st, mapGet (r.apply lib c).msgData k = some { record with status := st } := by
  have hmod : ∀ (m : ID) (st : Nat),
      ∃ st2, mapGet (mapModify r.msgData m (fun x => { x with status := st })) k
        = some { record with status := st2 } := by
    intro m st
    by_cases hk : k = m
    · subst hk
      exact ⟨st, by rw [mapGet_mapModify_self, h]; rfl⟩
    · exact ⟨record.status, by rw [mapGet_mapModify_ne _ _ _ _ hk, h]⟩
  cases c with
  | updateSent u m ts rd st =>
    simp only [receiver.apply]
    rw [(UpdateSentStatus_frame r u m ts rd st).1]
    exact hmod m st
  | recv e =>
    simp only [receiver.apply]
    cases hg : mapGet r.msgData e.messageID with
    | some msg =>
      rw [step_present lib r e msg hg]
      exact hmod e.messageID e.status
    | none =>
      obtain ⟨-, -, -, rec2, -, hmap⟩ := step_absent lib r e hg
      have hk : k ≠ e.messageID := by
        intro hk
        rw [hk, hg] at h
        exact Option.noConfusion h
      exact ⟨record.status, by rw [hmap, mapGet_mapSet_ne _ _ _ _ hk, h]⟩

theorem record_kept_runCalls (lib : Lib ID) (cs : List (Call ID Round))
    (r : receiver ID Round) (k : ID) (record : msgInfo ID Round)
    (h : mapGet r.msgData k = some record) :
    ∃ st, mapGet (receiver.runCalls lib r cs).msgData k
      = some { record with status := st } := by
  induction cs generalizing r record with
  | nil => exact ⟨record.status, h⟩
  | cons c cs ih =>
    obtain ⟨st1, h1⟩ := record_kept_apply lib r c k record h
    obtain ⟨st2, h2⟩ := ih (r.apply lib c) _ h1
    exact ⟨st2, h2⟩

/-- C20: on a receiver made by `newReceiver`, at every point of a finite
interleaving of receive events and `UpdateSentStatus` calls whose receive
events carry fewer than `2^64` distinct identities: the counter is the
number of records, the identities with a record are distinct (they are the
identities received so far, in order of first observation), the sequence
numbers of the records are 1, 2, ..., counter, and every record present at
that point is still present at the end with all its fields but the status
unchanged. -/
theorem C20_counter_and_records (lib : Lib ID) (store : inboxStore)
    (calls : List (Call ID Round))
    (hlt : (firstSeen (recvIDs calls)).length < 2 ^ 64)
    (pre post : List (Call ID Round)) (hsplit : calls = pre ++ post) :
    (receiver.runCalls lib (newReceiver store) pre).uuid
      = (receiver.runCalls lib (newReceiver store) pre).msgData.length ∧
    (receiver.runCalls lib (newReceiver store) pre).msgData.map Prod.fst
      = firstSeen (recvIDs pre) ∧
    ((receiver.runCalls lib (newReceiver store) pre).msgData.map Prod.fst).Nodup ∧
    (receiver.runCalls lib (newReceiver store) pre).msgData.map (fun q => q.2.uuid)
      = List.range' 1 (receiver.runCalls lib (newReceiver store) pre).uuid ∧
    (∀ (k : ID) (record : msgInfo ID Round),
      mapGet (receiver.runCalls lib (newReceiver store) pre).msgData k = some record →
      ∃ st, mapGet (receiver.runCalls lib (newReceiver store) calls).msgData k
        = some { record with status := st }) := by
  have hkeys := keys_runCalls lib pre (newReceiver store : receiver ID Round)
  have hkeys2 : (receiver.runCalls lib (newReceiver store) pre).msgData.map Prod.fst
      = firstSeen (recvIDs pre) := by
    rw [hkeys]
    rfl
  have hle : (firstSeen (recvIDs pre)).length < 2 ^ 64 := by
    have h1 := length_le_observe (recvIDs post) (firstSeen (recvIDs pre))
    have h2 : observe (firstSeen (recvIDs pre)) (recvIDs post) = firstSeen (recvIDs calls) := by
      rw [hsplit, recvIDs_append]
      exact (observe_append _ _ _).symm
    rw [h2] at h1
    omega
  obtain ⟨hu, hn⟩ := counted_runCalls lib pre (newReceiver store : receiver ID Round)
    rfl rfl hle
  refine ⟨hu, hkeys2, ?_, ?_, ?_⟩
  · rw [hkeys2]
    exact nodup_observe _ _ List.nodup_nil
  · rw [hn, hu]
  · intro k record hk
    rw [hsplit, runCalls_append]
    exact record_kept_runCalls lib post _ k record hk

/-- Witness of C20: identities a, b with a status update and a repeat in
between; after the first two calls the record of "a" is the one created,
and at the end the counter is 2. -/
theorem C20_counter_and_records_witness :
    (receiver.runCalls demoLib (newReceiver newInboxStore : receiver String Unit)
      [Call.recv (RecvEvent.ReceiveText "a" "n" "x" [] [7] 0 0 ⟨0⟩ () 0),
        Call.updateSent 9 "a" ⟨1⟩ () 2,
        Call.recv (RecvEvent.ReceiveReply "b" "a" "n" "y" [] [7] 0 0 ⟨0⟩ () 0),
        Call.recv (RecvEvent.ReceiveText "a" "n" "zz" [] [8] 0 0 ⟨5⟩ () 3)]).uuid
      = (receiver.runCalls demoLib (newReceiver newInboxStore : receiver String Unit)
        [Call.recv (RecvEvent.ReceiveText "a" "n" "x" [] [7] 0 0 ⟨0⟩ () 0),
          Call.updateSent 9 "a" ⟨1⟩ () 2,
          Call.recv (RecvEvent.ReceiveReply "b" "a" "n" "y" [] [7] 0 0 ⟨0⟩ () 0),
          Call.recv (RecvEvent.ReceiveText "a" "n" "zz" [] [8] 0 0 ⟨5⟩ () 3)]).msgData.length :=
  (C20_counter_and_records demoLib newInboxStore
    [Call.recv (RecvEvent.ReceiveText "a" "n" "x" [] [7] 0 0 ⟨0⟩ () 0),
      Call.updateSent 9 "a" ⟨1⟩ () 2,
      Call.recv (RecvEvent.ReceiveReply "b" "a" "n" "y" [] [7] 0 0 ⟨0⟩ () 0),
      Call.recv (RecvEvent.ReceiveText "a" "n" "zz" [] [8] 0 0 ⟨5⟩ () 3)]
    (by decide)
    [Call.recv (RecvEvent.ReceiveText "a" "n" "x" [] [7] 0 0 ⟨0⟩ () 0),
      Call.updateSent 9 "a" ⟨1⟩ () 2,
      Call.recv (RecvEvent.ReceiveReply "b" "a" "n" "y" [] [7] 0 0 ⟨0⟩ () 0),
      Call.recv (RecvEvent.ReceiveText "a" "n" "zz" [] [8] 0 0 ⟨5⟩ () 3)]
    [] rfl).1

end Interleavings

end XXProxy
